import Mathlib

/-!
# log2fluent: the forwarding pipeline

A shallow embedding of `internal/forwarder.go` (`NewForwarder`,
`Forwarder.readLines` and the two goroutines of `Forwarder.Forward`), of
`internal/logger.go` (`FluentLogger`) and of `parseExtraAttrs` and
`parseLocation` in `main.go`,
together with theorems about the line splitter, the drop-on-full hand-off,
the delivery loop, the logger and the two parsers.

Conventions of the embedding:

* a Go `string` is a finite sequence of bytes, `List UInt8`; the newline
  byte is `10`;
* a Go `error` result is an `Option Error`, `none` standing for `nil`;
* the `slog` diagnostics of the source have no influence on control flow and
  are left out;
* the sink (`Logger` interface) is an arbitrary deterministic state machine:
  every method maps the sink's current state to an answer and a next state,
  and every call the delivery loop makes is recorded in a trace; the client
  behind a `FluentLogger` is modelled the same way;
* a Go `map[string]string` is the list of its entries, read with `mapGet` and
  written with `mapSet`.
-/

namespace Log2Fluent

/-! ## Data model -/

/-- One byte of a stream. -/
abbrev Byte := UInt8

/-- Go strings are byte sequences. -/
abbrev GoString := List Byte

/-- The newline delimiter `'\n'`. -/
def newline : Byte := 10

/-- Go error values as far as the forwarder tells them apart: the sentinel
`io.EOF`, an error made from a message, and an error wrapping another one
(`fmt.Errorf("...: %w", err)`). -/
inductive Error where
  | EOF : Error
  | new (msg : String) : Error
  | wrap (msg : String) (inner : Error) : Error
  deriving DecidableEq

/-! ## The byte-stream source and `bufio.Reader.ReadString` -/

/-- The source behind the `bufio.Reader`: the bytes it yields before its
first error, and that error (`Error.EOF` for a plain end of stream). How the
bytes are chunked over individual `Read` calls is not observable through
`ReadString`. -/
structure Reader where
  data : List Byte
  err : Error
  deriving DecidableEq

/-- `reader.ReadString(delim)`: the data up to and including the first
`delim`; when the source fails before a delimiter is found, the data read so
far together with the error. The error is non-nil exactly when the returned
data does not end in `delim`. -/
def Reader.ReadString (r : Reader) (delim : Byte) : (GoString × Option Error) × Reader :=
  match r.data.dropWhile (fun b => b != delim) with
  | [] => ((r.data, some r.err), { r with data := [] })
  | _ :: rest =>
    ((r.data.takeWhile (fun b => b != delim) ++ [delim], none), { r with data := rest })

/-- `strings.TrimSuffix(s, suffix)`: `s` without the trailing `suffix`, or
`s` itself when it does not end in `suffix`. -/
def TrimSuffix (s suffix : GoString) : GoString :=
  if suffix.isSuffixOf s then s.take (s.length - suffix.length) else s

/-! ## The message channel -/

/-- The buffered channel `make(chan string, bufLen)` as the producer sees it
while no receiver takes anything: its capacity and the queued messages,
oldest first. -/
structure Chan where
  cap : Nat
  buf : List GoString
  deriving DecidableEq

/-- `make(chan string, n)`. -/
def Chan.make (n : Nat) : Chan := { cap := n, buf := [] }

/-- The non-blocking send `select { case msgs <- x: default: }` with no
receiver ready: the message is appended when the buffer has room, otherwise
the channel is left as it is. The flag tells whether the message was sent. -/
def Chan.trySend (ch : Chan) (x : GoString) : Bool × Chan :=
  if ch.buf.length < ch.cap then (true, { ch with buf := ch.buf ++ [x] }) else (false, ch)

/-! ## `Forwarder.readLines` -/

/-- The `for` loop of `Forwarder.readLines`, one iteration per unit of fuel.
The result is the returned error, the reader and the channel; `none` means
the fuel ran out before the loop returned. -/
def readLinesLoop : Nat → Reader → Chan → Option (Option Error × Reader × Chan)
  | 0, _, _ => none
  | fuel + 1, reader, msgs =>
    let ((line, err), reader1) := reader.ReadString newline
    -- if err != nil { if err != io.EOF { return ... }; if line == "" { return nil } }
    let early : Option (Option Error) :=
      match err with
      | some e =>
        if e ≠ Error.EOF then some (some (Error.wrap "error reading from reader" e))
        else if line = [] then some none
        else none
      | none => none
    match early with
    | some result => some (result, reader1, msgs)
    | none =>
      -- select { case msgs <- strings.TrimSuffix(line, "\n"): default: }
      let msgs1 := (msgs.trySend (TrimSuffix line [newline])).2
      -- if err == io.EOF { return nil }
      if err = some Error.EOF then some (none, reader1, msgs1)
      else readLinesLoop fuel reader1 msgs1

/-- `Forwarder.readLines`: every iteration that does not return consumes at
least the delimiter, so one more iteration than there are bytes suffices. -/
def readLines (src : Reader) (msgs : Chan) : Option (Option Error × Reader × Chan) :=
  readLinesLoop (src.data.length + 1) src msgs

/-! ## Reference definition of line splitting -/

/-- The fragments of `s` between newline bytes, delimiters removed. -/
def fragments (s : List Byte) : List GoString := s.splitOn newline

/-- Reference semantics of the splitter, following the specification: split
at every newline, drop the final unterminated fragment when it is empty and
keep it as the last line when it is not. -/
def refLines (s : List Byte) : List GoString :=
  if (fragments s).getLast? = some [] then (fragments s).dropLast else fragments s

/-- The bytes of an ASCII literal, for writing examples. -/
def bytes (s : String) : GoString := s.toList.map (fun c => c.toNat.toUInt8)

/-- Every line of `lines` sent in turn with the non-blocking send. -/
def pushAll (ch : Chan) (lines : List GoString) : Chan :=
  lines.foldl (fun c l => (c.trySend l).2) ch

/-! ## The sink and the delivery loop -/

/-- The `Logger` interface: each method takes the sink's state to its answer
and the next state. An `error` answer of `none` is `nil`. -/
structure Logger (σ : Type) where
  Log : GoString → σ → Option Error × σ
  Connect : σ → Option Error × σ
  Disconnect : σ → Option Error × σ
  IsConnected : σ → Bool × σ

/-- One call made on the sink, with what it returned. -/
inductive Call where
  | isConnected (answer : Bool) : Call
  | connect (err : Option Error) : Call
  | disconnect (err : Option Error) : Call
  | log (msg : GoString) (err : Option Error) : Call
  deriving DecidableEq

/-- Whether the call is a `Log`. -/
def Call.isLog : Call → Bool
  | .log _ _ => true
  | _ => false

/-- Whether the call is a `Connect`. -/
def Call.isConnect : Call → Bool
  | .connect _ => true
  | _ => false

/-- Whether the call is a `Disconnect`. -/
def Call.isDisconnect : Call → Bool
  | .disconnect _ => true
  | _ => false

/-- Whether the call is a `Log` that returned an error. -/
def Call.isFailedLog : Call → Bool
  | .log _ (some _) => true
  | _ => false

/-- The argument of a `Log` call. -/
def Call.logArg? : Call → Option GoString
  | .log m _ => some m
  | _ => none

/-- The argument of a `Log` call that returned nil. -/
def Call.sent? : Call → Option GoString
  | .log m none => some m
  | _ => none

/-- The arguments of the `Log` calls of a trace, in call order. -/
def logArgs (t : List Call) : List GoString := t.filterMap Call.logArg?

/-- The arguments of the `Log` calls that returned nil, in call order. -/
def delivered (t : List Call) : List GoString := t.filterMap Call.sent?

/-- The trace from its first `Log` call on. -/
def fromFirstLog (t : List Call) : List Call := t.dropWhile (fun c => !c.isLog)

/-- Lines 77 to 91 of `Forward`: send the message, and after a failure
disconnect, reconnect once and send once more. -/
def logWithRetry {σ : Type} (L : Logger σ) (msg : GoString) (s : σ) : List Call × σ :=
  match L.Log msg s with
  | (none, s1) => ([.log msg none], s1)
  | (some e1, s1) =>
    -- _ = f.logger.Disconnect()
    let (d1, s2) := L.Disconnect s1
    match L.Connect s2 with
    | (some e2, s3) => ([.log msg (some e1), .disconnect d1, .connect (some e2)], s3)
    | (none, s3) =>
      match L.Log msg s3 with
      | (none, s4) =>
        ([.log msg (some e1), .disconnect d1, .connect none, .log msg none], s4)
      | (some e3, s4) =>
        let (d2, s5) := L.Disconnect s4
        ([.log msg (some e1), .disconnect d1, .connect none, .log msg (some e3),
          .disconnect d2], s5)

/-- The body of `for msg := range msgs` in the writer goroutine: the calls
made for one message and the sink's state afterwards. -/
def writerBody {σ : Type} (L : Logger σ) (msg : GoString) (s : σ) : List Call × σ :=
  match L.IsConnected s with
  | (true, s1) =>
    let (t, s2) := logWithRetry L msg s1
    (.isConnected true :: t, s2)
  | (false, s1) =>
    match L.Connect s1 with
    | (some e, s2) => ([.isConnected false, .connect (some e)], s2)
    | (none, s2) =>
      let (t, s3) := logWithRetry L msg s2
      (.isConnected false :: .connect none :: t, s3)

/-- The `for msg := range msgs` loop of the writer goroutine over the
messages received until the channel is closed and drained. -/
def writerLoop {σ : Type} (L : Logger σ) : List GoString → σ → List Call × σ
  | [], s => ([], s)
  | msg :: rest, s =>
    let (t, s1) := writerBody L msg s
    let (ts, s2) := writerLoop L rest s1
    (t ++ ts, s2)

/-- The writer goroutine of `Forward`: the loop, then the deferred
`Disconnect`, whose error is discarded. -/
def writer {σ : Type} (L : Logger σ) (msgs : List GoString) (s : σ) : List Call × σ :=
  let (t, s1) := writerLoop L msgs s
  let (d, s2) := L.Disconnect s1
  (t ++ [.disconnect d], s2)

/-! ## A scripted sink for scenarios -/

/-- Answers scripted per method, consumed one per call; once a script is
used up the method answers its default: connected, or nil. -/
structure Script where
  isConnected : List Bool
  connect : List (Option Error)
  log : List (Option Error)
  disconnect : List (Option Error)
  deriving DecidableEq

/-- The sink that replays a `Script`. -/
def scripted : Logger Script where
  Log := fun _ s => (s.log.headD none, { s with log := s.log.tail })
  Connect := fun s => (s.connect.headD none, { s with connect := s.connect.tail })
  Disconnect := fun s => (s.disconnect.headD none, { s with disconnect := s.disconnect.tail })
  IsConnected := fun s => (s.isConnected.headD true, { s with isConnected := s.isConnected.tail })

/-- The error value used in scenarios. -/
def someErr : Error := Error.new "error"

/-- A sink that is always connected and accepts every message; its state
counts the messages it has accepted. -/
def alwaysUp : Logger Nat where
  Log := fun _ n => (none, n + 1)
  Connect := fun n => (none, n)
  Disconnect := fun n => (none, n)
  IsConnected := fun n => (true, n)

/-! ## Shapes of the per-message call sequence -/

/-- The calls made for each message, message by message: the trace of the
loop cut at the points where the next message is received. -/
def writerSegments {σ : Type} (L : Logger σ) : List GoString → σ → List (List Call)
  | [], _ => []
  | msg :: rest, s => (writerBody L msg s).1 :: writerSegments L rest (writerBody L msg s).2

/-- The call sequences `logWithRetry` can produce for a message. -/
inductive RetryShape (msg : GoString) : List Call → Prop where
  | sent : RetryShape msg [.log msg none]
  | reconnectFailed (e1 : Error) (d1 : Option Error) (e2 : Error) :
      RetryShape msg [.log msg (some e1), .disconnect d1, .connect (some e2)]
  | resent (e1 : Error) (d1 : Option Error) :
      RetryShape msg [.log msg (some e1), .disconnect d1, .connect none, .log msg none]
  | dropped (e1 : Error) (d1 : Option Error) (e3 : Error) (d2 : Option Error) :
      RetryShape msg [.log msg (some e1), .disconnect d1, .connect none, .log msg (some e3),
        .disconnect d2]

/-- The call sequences the loop body can produce for a message. -/
inductive BodyShape (msg : GoString) : List Call → Prop where
  | connectFailed (e : Error) : BodyShape msg [.isConnected false, .connect (some e)]
  | connected (t : List Call) : RetryShape msg t → BodyShape msg (.isConnected true :: t)
  | reconnected (t : List Call) :
      RetryShape msg t → BodyShape msg (.isConnected false :: .connect none :: t)

/-- Whether the first `Log` call of a trace returned an error. -/
def firstLogFailed (t : List Call) : Bool :=
  match fromFirstLog t with
  | c :: _ => c.isFailedLog
  | [] => false

/-- Whether the first `Log` call of a trace failed and the `Connect` made
after the `Disconnect` that follows it succeeded. -/
def reconnectedAfterFailure (t : List Call) : Bool :=
  match fromFirstLog t with
  | .log _ (some _) :: .disconnect _ :: .connect none :: _ => true
  | _ => false

/-- The calls of a trace before its first `Log` call. -/
def beforeFirstLog (t : List Call) : List Call := t.takeWhile (fun c => !c.isLog)

/-- The lines of `s` that end in a newline, delimiters removed: every
fragment but the final, unterminated one. -/
def terminatedLines (s : List Byte) : List GoString := (fragments s).dropLast

/-- The concatenation of `l ++ "\n"` for `l` in `ls`. -/
def joinLines (ls : List GoString) : List Byte := (ls.map fun l => l ++ [newline]).flatten

/-- Four lines, the second one byte longer than `bufio.MaxScanTokenSize`
(65536). -/
def largeLines : List GoString := [bytes "1", List.replicate 65537 97, bytes "2", bytes "3"]

/-! ## The reader goroutine of `Forward` -/

/-- What the reader goroutine does to the channel and the source. -/
inductive ProducerStep where
  | push (line : GoString) : ProducerStep
  | closeMsgs : ProducerStep
  | closeSrc : ProducerStep
  deriving DecidableEq

/-- Whether the step is `close(msgs)`. -/
def ProducerStep.isCloseMsgs : ProducerStep → Bool
  | .closeMsgs => true
  | _ => false

/-- Whether the step is `f.src.Close()`. -/
def ProducerStep.isCloseSrc : ProducerStep → Bool
  | .closeSrc => true
  | _ => false

/-- The reader goroutine of `Forward`: it runs `readLines`, and when that
returns the deferred function closes the channel and then the source. The
steps are the lines `readLines` sent (what it appended to the buffer),
followed by the two closes; the error of `readLines` is only logged. -/
def producer (src : Reader) (msgs : Chan) :
    Option (List ProducerStep × Option Error × Reader × Chan) :=
  match readLines src msgs with
  | none => none
  | some (err, src1, msgs1) =>
    some ((msgs1.buf.drop msgs.buf.length).map ProducerStep.push ++
      [ProducerStep.closeMsgs, ProducerStep.closeSrc], err, src1, msgs1)

/-! ## `NewForwarder` -/

/-- The `Forwarder` struct. -/
structure Forwarder (σ : Type) where
  name : GoString
  bufLen : Nat
  src : Reader
  logger : Logger σ

/-- `NewForwarder`: one `Connect` on the logger, whose error is only logged,
then the struct built from the arguments. The result is the forwarder, the
calls made on the logger and the logger's state afterwards. -/
def NewForwarder {σ : Type} (name : GoString) (bufLen : Nat) (src : Reader)
    (logger : Logger σ) (s : σ) : Forwarder σ × List Call × σ :=
  let (err, s1) := logger.Connect s
  ({ name := name, bufLen := bufLen, src := src, logger := logger }, [.connect err], s1)

/-- Whether the call is an `IsConnected`. -/
def Call.isIsConnected : Call → Bool
  | .isConnected _ => true
  | _ => false

/-- A sink that is never connected and cannot be reached; its state counts
the failed connection attempts. -/
def alwaysDown : Logger Nat where
  Log := fun _ n => (some someErr, n)
  Connect := fun n => (some someErr, n + 1)
  Disconnect := fun n => (none, n)
  IsConnected := fun n => (false, n)

/-! ## Go maps -/

/-- A Go `map[string]string`, given by its entries; the keys of a map are
distinct. -/
abbrev GoMap := List (GoString × GoString)

/-- The value `m[k]`, if `k` is a key of `m`. -/
def mapGet (m : GoMap) (k : GoString) : Option GoString := List.lookup k m

/-- The assignment `m[k] = v`: the entry for `k` is replaced or added. -/
def mapSet (m : GoMap) (k v : GoString) : GoMap := (k, v) :: m.filter (fun e => e.1 != k)

/-- The keys of `m`. -/
def mapKeys (m : GoMap) : List GoString := m.map Prod.fst

/-! ## `FluentLogger` (`internal/logger.go`) -/

/-- The `client.MessageClient` behind a `FluentLogger`, as far as the logger
uses it: each method takes the client's state to its answer and the next
state. -/
structure MessageClient (γ : Type) where
  SendMessage : GoString → GoMap → γ → Option Error × γ
  Reconnect : γ → Option Error × γ
  Disconnect : γ → Option Error × γ

/-- One call made on the client, with what it returned. -/
inductive ClientCall where
  | sendMessage (tag : GoString) (record : GoMap) (err : Option Error) : ClientCall
  | reconnect (err : Option Error) : ClientCall
  | disconnect (err : Option Error) : ClientCall
  deriving DecidableEq

/-- The `FluentLogger` struct; `c` is the state of its client. -/
structure FluentLogger (γ : Type) where
  tag : GoString
  stream : GoString
  extra : GoMap
  c : γ
  connected : Bool

/-- `NewFluentLogger`; `newClient network addr` stands for the client that
`client.New` builds for that address. -/
def NewFluentLogger {γ : Type} (newClient : GoString → GoString → γ)
    (network addr tag stream : GoString) (extra : GoMap) : FluentLogger γ :=
  { tag := tag, stream := stream, extra := extra, c := newClient network addr,
    connected := false }

/-- `FluentLogger.Log`: the record is built from `"log"` and `"stream"`,
every entry of `extra` is assigned into it, and it is sent under the logger's
tag. The result is the returned error, the logger afterwards and the calls
made on the client. -/
def FluentLogger.Log {γ : Type} (w : FluentLogger γ) (C : MessageClient γ) (msg : GoString) :
    Option Error × FluentLogger γ × List ClientCall :=
  let record0 : GoMap := [(bytes "log", msg), (bytes "stream", w.stream)]
  -- for k, v := range w.extra { record[k] = v }
  let record := w.extra.foldl (fun r kv => mapSet r kv.1 kv.2) record0
  let (err, c1) := C.SendMessage w.tag record w.c
  (err, { w with c := c1 }, [.sendMessage w.tag record err])

/-- `FluentLogger.Connect`. -/
def FluentLogger.Connect {γ : Type} (w : FluentLogger γ) (C : MessageClient γ) :
    Option Error × FluentLogger γ × List ClientCall :=
  match C.Reconnect w.c with
  | (some err, c1) =>
    (some (Error.wrap "error connecting logger" err), { w with c := c1, connected := false },
      [.reconnect (some err)])
  | (none, c1) => (none, { w with c := c1, connected := true }, [.reconnect none])

/-- `FluentLogger.Disconnect`. -/
def FluentLogger.Disconnect {γ : Type} (w : FluentLogger γ) (C : MessageClient γ) :
    Option Error × FluentLogger γ × List ClientCall :=
  let (err, c1) := C.Disconnect w.c
  (err, { w with c := c1, connected := false }, [.disconnect err])

/-- `FluentLogger.IsConnected`. -/
def FluentLogger.IsConnected {γ : Type} (w : FluentLogger γ) : Bool := w.connected

/-- Answers of a client scripted per method, consumed one per call; once a
script is used up the method answers nil. -/
structure ClientScript where
  send : List (Option Error)
  reconnect : List (Option Error)
  disconnect : List (Option Error)
  deriving DecidableEq

/-- The client that replays a `ClientScript`. -/
def scriptedClient : MessageClient ClientScript where
  SendMessage := fun _ _ s => (s.send.headD none, { s with send := s.send.tail })
  Reconnect := fun s => (s.reconnect.headD none, { s with reconnect := s.reconnect.tail })
  Disconnect := fun s => (s.disconnect.headD none, { s with disconnect := s.disconnect.tail })

/-! ## `parseExtraAttrs` (`main.go`) -/

/-- The byte `','`. -/
def comma : Byte := 44

/-- The byte `'='`. -/
def equalsSign : Byte := 61

/-- `strings.Split(s, sep)` for a separator of one byte. -/
def Split (s : GoString) (sep : Byte) : List GoString := s.splitOn sep

/-- `parseExtraAttrs`, over the function `TrimSpace` standing for
`strings.TrimSpace`. -/
def parseExtraAttrs (TrimSpace : GoString → GoString) (s : GoString) : GoMap :=
  let entries := Split s comma
  entries.foldl
    (fun extra e =>
      let parts := Split (TrimSpace e) equalsSign
      if parts.length = 2 then
        mapSet extra (TrimSpace (parts.getD 0 [])) (TrimSpace (parts.getD 1 []))
      else extra)
    []

/-- The white space of ASCII: tab, line feed, vertical tab, form feed,
carriage return and space. -/
def isASCIISpace (b : Byte) : Bool :=
  b == 9 || b == 10 || b == 11 || b == 12 || b == 13 || b == 32

/-- An instance of `strings.TrimSpace`: leading and trailing ASCII white
space removed. It is `strings.TrimSpace` on strings that have no other
Unicode white space at their ends. -/
def trimASCIISpace (s : GoString) : GoString :=
  ((s.dropWhile isASCIISpace).reverse.dropWhile isASCIISpace).reverse

/-- Reference reading of one entry, following the specification: an entry
that after trimming splits at `'='` into exactly two parts gives the trimmed
first part as key and the trimmed second part as value. -/
def keyValue? (trim : GoString → GoString) (e : GoString) : Option (GoString × GoString) :=
  match (trim e).splitOn equalsSign with
  | [k, v] => some (trim k, trim v)
  | _ => none

/-- The key/value pairs of the well-formed comma-separated entries of `s`,
in the order of the entries. -/
def wellFormedEntries (trim : GoString → GoString) (s : GoString) :
    List (GoString × GoString) :=
  (s.splitOn comma).filterMap (keyValue? trim)

/-! ## `parseLocation` (`main.go`) -/

/-- `strings.Index(s, sep)`: the index of the first occurrence of `sep` in
`s`, `none` standing for `-1`. -/
def Index : GoString → GoString → Option Nat
  | [], sep => if sep.isPrefixOf [] then some 0 else none
  | b :: s, sep => if sep.isPrefixOf (b :: s) then some 0 else (Index s sep).map (· + 1)

/-- `strings.SplitN(s, sep, n)` for a non-empty separator and `n ≥ 0`: `s`
cut at the first `n - 1` occurrences of `sep`, the last element being the
unsplit remainder; `n = 0` gives no element. -/
def SplitN : GoString → GoString → Nat → List GoString
  | _, _, 0 => []
  | s, _, 1 => [s]
  | s, sep, n + 2 =>
    match Index s sep with
    | none => [s]
    | some m => s.take m :: SplitN (s.drop (m + sep.length)) sep (n + 1)

/-- The separator `"://"` between network and address. -/
def schemeSep : GoString := bytes "://"

/-- `parseLocation`: network and address of `[network://]addr`. -/
def parseLocation (loc : GoString) : GoString × GoString :=
  let parts := SplitN loc schemeSep 2
  if parts.length = 2 then (parts.getD 0 [], parts.getD 1 [])
  else (bytes "tcp", loc)

/-! ## Neighbouring calls in a trace -/

/-- Every call of `t` that satisfies `target` is immediately followed by a
call that satisfies `good`. -/
def FollowedBy (target good : Call → Bool) (t : List Call) : Prop :=
  ∀ pre c post, t = pre ++ c :: post → target c = true →
    ∃ g post1, post = g :: post1 ∧ good g = true

/-- Every call of `t` that satisfies `target` is immediately preceded by a
call that satisfies `good`. -/
def PrecededBy (target good : Call → Bool) (t : List Call) : Prop :=
  ∀ pre c post, t = pre ++ c :: post → target c = true →
    ∃ pre1 g, pre = pre1 ++ [g] ∧ good g = true

/-- The computable form of `FollowedBy`. -/
def followedByCheck (target good : Call → Bool) : List Call → Bool
  | [] => true
  | c :: t => (!target c || t.head?.any good) && followedByCheck target good t

/-- Whether the call leaves the loop believing the sink connected: an
`IsConnected` that answered true or a `Connect` that returned nil. -/
def Call.permitsLog : Call → Bool
  | .isConnected true => true
  | .connect none => true
  | _ => false

/-- A `FluentLogger` over the client `C` as a sink of the delivery loop; the
sink's state is the logger. -/
def FluentLogger.toLogger {γ : Type} (C : MessageClient γ) : Logger (FluentLogger γ) where
  Log := fun msg w => ((w.Log C msg).1, (w.Log C msg).2.1)
  Connect := fun w => ((w.Connect C).1, (w.Connect C).2.1)
  Disconnect := fun w => ((w.Disconnect C).1, (w.Disconnect C).2.1)
  IsConnected := fun w => (w.IsConnected, w)

/-! ## Lemmas on splitting -/

theorem dropWhile_delim_cases (d : Byte) (s : List Byte) :
    (s.dropWhile (fun b => b != d) = [] ∧ d ∉ s) ∨
    (∃ rest, s.dropWhile (fun b => b != d) = d :: rest ∧
      s = s.takeWhile (fun b => b != d) ++ d :: rest ∧
      d ∉ s.takeWhile (fun b => b != d)) := by
  induction s with
  | nil => left; simp
  | cons a t ih =>
    by_cases h : a = d
    · right
      refine ⟨t, ?_, ?_, ?_⟩ <;> simp [h, List.dropWhile, List.takeWhile]
    · have hb : (a != d) = true := by simpa using h
      rcases ih with ⟨h1, h2⟩ | ⟨rest, h1, h2, h3⟩
      · left
        refine ⟨by simp [List.dropWhile, hb, h1], ?_⟩
        simp [h2, Ne.symm h]
      · right
        refine ⟨rest, by simp [List.dropWhile, hb, h1], ?_, ?_⟩
        · simp only [List.takeWhile, hb, List.cons_append]
          rw [← h2]
        · simp [List.takeWhile, hb, h3, Ne.symm h]

theorem fragments_ne_nil (s : List Byte) : fragments s ≠ [] :=
  List.splitOnP_ne_nil _ s

theorem fragments_of_not_mem {s : List Byte} (h : newline ∉ s) : fragments s = [s] := by
  unfold fragments List.splitOn
  apply List.splitOnP_eq_single
  intro x hx hp
  have : x = newline := by simpa using hp
  exact h (this ▸ hx)

theorem fragments_line {pre : List Byte} (h : newline ∉ pre) (rest : List Byte) :
    fragments (pre ++ newline :: rest) = pre :: fragments rest := by
  unfold fragments List.splitOn
  apply List.splitOnP_first
  · intro x hx hp
    have : x = newline := by simpa using hp
    exact h (this ▸ hx)
  · simp

theorem refLines_nil : refLines [] = [] := by
  simp [refLines, fragments]

theorem refLines_of_not_mem {s : List Byte} (h : newline ∉ s) (hne : s ≠ []) :
    refLines s = [s] := by
  simp [refLines, fragments_of_not_mem h, hne]

theorem refLines_line {pre : List Byte} (h : newline ∉ pre) (rest : List Byte) :
    refLines (pre ++ newline :: rest) = pre :: refLines rest := by
  have hne := fragments_ne_nil rest
  unfold refLines
  rw [fragments_line h]
  cases hf : fragments rest with
  | nil => exact absurd hf hne
  | cons a l =>
    rw [List.getLast?_cons_cons]
    split
    · rw [List.dropLast_cons_of_ne_nil (by simp)]
    · rfl

theorem TrimSuffix_line (pre : List Byte) : TrimSuffix (pre ++ [newline]) [newline] = pre := by
  simp [TrimSuffix]

theorem TrimSuffix_of_not_mem {s : List Byte} (h : newline ∉ s) :
    TrimSuffix s [newline] = s := by
  unfold TrimSuffix
  split
  · rename_i hs
    rw [List.isSuffixOf_iff_suffix] at hs
    exact absurd (hs.subset (by simp)) h
  · rfl

/-- On a source that ends with a plain end of stream, the loop returns nil
once it has more fuel than there are bytes, having offered exactly the
reference lines to the channel, in order. -/
theorem readLinesLoop_EOF (fuel : Nat) :
    ∀ (s : List Byte) (ch : Chan), s.length < fuel →
      readLinesLoop fuel { data := s, err := Error.EOF } ch =
        some (none, { data := [], err := Error.EOF }, pushAll ch (refLines s)) := by
  induction fuel with
  | zero => intro s ch h; omega
  | succ n ih =>
    intro s ch hlen
    rcases dropWhile_delim_cases newline s with ⟨h1, h2⟩ | ⟨rest, h1, h2, h3⟩
    · by_cases hs : s = []
      · subst hs
        simp [readLinesLoop, Reader.ReadString, refLines_nil, pushAll]
      · simp [readLinesLoop, Reader.ReadString, h1, hs, refLines_of_not_mem h2 hs, pushAll,
          TrimSuffix_of_not_mem h2]
    · have hrest : rest.length < n := by
        have := congrArg List.length h2
        simp at this
        omega
      have hl : refLines s = s.takeWhile (fun b => b != newline) :: refLines rest := by
        conv_lhs => rw [h2]
        exact refLines_line h3 rest
      simp [readLinesLoop, Reader.ReadString, h1, TrimSuffix_line, ih rest _ hrest, hl, pushAll]

theorem pushAll_buf_of_room (lines : List GoString) :
    ∀ ch : Chan, ch.buf.length + lines.length ≤ ch.cap →
      pushAll ch lines = { ch with buf := ch.buf ++ lines } := by
  induction lines with
  | nil => intro ch _; simp [pushAll]
  | cons l ls ih =>
    intro ch h
    have h1 : ch.buf.length < ch.cap := by simp at h; omega
    have := ih { ch with buf := ch.buf ++ [l] } (by simp at h ⊢; omega)
    simp only [pushAll, List.foldl_cons, Chan.trySend, h1, if_true] at this ⊢
    rw [this]
    simp

theorem pushAll_make (lines : List GoString) (n : Nat) :
    ∀ ch : Chan, ch.cap = n → ch.buf.length ≤ n →
      pushAll ch lines = { ch with buf := (ch.buf ++ lines).take n } := by
  induction lines with
  | nil => intro ch hc hb; simp [pushAll, List.take_of_length_le hb]
  | cons l ls ih =>
    intro ch hc hb
    by_cases h1 : ch.buf.length < ch.cap
    · have := ih { ch with buf := ch.buf ++ [l] } hc (by simp; omega)
      simp only [pushAll, List.foldl_cons, Chan.trySend, h1, if_true] at this ⊢
      rw [this]
      simp
    · have hfull : ch.buf.length = n := by omega
      have := ih ch hc hb
      simp only [pushAll, List.foldl_cons, Chan.trySend, h1, if_false] at this ⊢
      rw [this]
      congr 1
      rw [List.take_append_of_le_length (by omega), List.take_append_of_le_length (by omega)]


/-! ## Lemmas on the delivery loop -/

theorem logWithRetry_shape {σ : Type} (L : Logger σ) (msg : GoString) (s : σ) :
    RetryShape msg (logWithRetry L msg s).1 := by
  unfold logWithRetry
  repeat' split
  all_goals
    first
      | exact .sent
      | exact .reconnectFailed _ _ _
      | exact .resent _ _
      | exact .dropped _ _ _ _

theorem writerBody_shape {σ : Type} (L : Logger σ) (msg : GoString) (s : σ) :
    BodyShape msg (writerBody L msg s).1 := by
  unfold writerBody
  split
  · exact .connected _ (logWithRetry_shape L msg _)
  · split
    · exact .connectFailed _
    · exact .reconnected _ (logWithRetry_shape L msg _)

theorem writerLoop_cons {σ : Type} (L : Logger σ) (msg : GoString) (rest : List GoString)
    (s : σ) :
    writerLoop L (msg :: rest) s =
      ((writerBody L msg s).1 ++ (writerLoop L rest (writerBody L msg s).2).1,
        (writerLoop L rest (writerBody L msg s).2).2) := rfl

theorem writerLoop_eq_segments {σ : Type} (L : Logger σ) (msgs : List GoString) :
    ∀ s : σ, (writerLoop L msgs s).1 = (writerSegments L msgs s).flatten := by
  induction msgs with
  | nil => intro s; rfl
  | cons m rest ih => intro s; simp [writerLoop_cons, writerSegments, ih]

theorem writerSegments_shape {σ : Type} (L : Logger σ) (msgs : List GoString) :
    ∀ s : σ, List.Forall₂ BodyShape msgs (writerSegments L msgs s) := by
  induction msgs with
  | nil => intro s; exact List.Forall₂.nil
  | cons m rest ih => intro s; exact List.Forall₂.cons (writerBody_shape L m s) (ih _)

theorem writer_trace {σ : Type} (L : Logger σ) (msgs : List GoString) (s : σ) :
    (writer L msgs s).1 =
      (writerLoop L msgs s).1 ++ [.disconnect (L.Disconnect (writerLoop L msgs s).2).1] := rfl

theorem writerBody_healthy {σ : Type} (L : Logger σ) (msg : GoString) (s : σ)
    (hconn : ∀ s, (L.IsConnected s).1 = true) (hlog : ∀ m s, (L.Log m s).1 = none) :
    (writerBody L msg s).1 = [.isConnected true, .log msg none] := by
  have hi : L.IsConnected s = (true, (L.IsConnected s).2) := by
    rw [← hconn s]
  have hl : L.Log msg (L.IsConnected s).2 = (none, (L.Log msg (L.IsConnected s).2).2) := by
    rw [← hlog msg (L.IsConnected s).2]
  unfold writerBody logWithRetry
  rw [hi]
  simp only
  rw [hl]

theorem writerLoop_healthy {σ : Type} (L : Logger σ) (msgs : List GoString)
    (hconn : ∀ s, (L.IsConnected s).1 = true) (hlog : ∀ m s, (L.Log m s).1 = none) :
    ∀ s : σ, (writerLoop L msgs s).1 =
      (msgs.map fun m => [Call.isConnected true, Call.log m none]).flatten := by
  induction msgs with
  | nil => intro s; rfl
  | cons m rest ih =>
    intro s
    rw [writerLoop_cons]
    simp only [writerBody_healthy L m s hconn hlog, ih, List.map_cons, List.flatten_cons]

theorem logArgs_healthy (msgs : List GoString) :
    logArgs (msgs.map fun m => [Call.isConnected true, Call.log m none]).flatten = msgs := by
  induction msgs with
  | nil => rfl
  | cons m rest ih =>
    simp only [logArgs, List.map_cons, List.flatten_cons, List.filterMap_append] at ih ⊢
    rw [ih]
    rfl

theorem delivered_healthy (msgs : List GoString) :
    delivered (msgs.map fun m => [Call.isConnected true, Call.log m none]).flatten = msgs := by
  induction msgs with
  | nil => rfl
  | cons m rest ih =>
    simp only [delivered, List.map_cons, List.flatten_cons, List.filterMap_append] at ih ⊢
    rw [ih]
    rfl

theorem countP_healthy (p : Call → Bool) (hc : p (.isConnected true) = false)
    (hl : ∀ m, p (.log m none) = false) (msgs : List GoString) :
    (msgs.map fun m => [Call.isConnected true, Call.log m none]).flatten.countP p = 0 := by
  induction msgs with
  | nil => rfl
  | cons m rest ih =>
    simp only [List.map_cons, List.flatten_cons, List.countP_append, ih]
    simp [List.countP_cons, hc, hl]

theorem writerBody_dropped_trace {σ : Type} (L : Logger σ) (msg : GoString) (s : σ)
    (e1 e3 : Error) (d1 : Option Error) (rest : List Call)
    (h : fromFirstLog (writerBody L msg s).1 =
      Call.log msg (some e1) :: Call.disconnect d1 :: Call.connect none ::
        Call.log msg (some e3) :: rest) :
    ∃ d2, rest = [Call.disconnect d2]
      ∧ ((writerBody L msg s).1 =
            [Call.isConnected true, Call.log msg (some e1), Call.disconnect d1,
              Call.connect none, Call.log msg (some e3), Call.disconnect d2]
        ∨ (writerBody L msg s).1 =
            [Call.isConnected false, Call.connect none, Call.log msg (some e1),
              Call.disconnect d1, Call.connect none, Call.log msg (some e3),
              Call.disconnect d2]) := by
  have hs := writerBody_shape L msg s
  generalize (writerBody L msg s).1 = t at hs h ⊢
  rcases hs with _ | ⟨_, hr⟩ | ⟨_, hr⟩
  · simp [fromFirstLog, Call.isLog] at h
  all_goals
    rcases hr with _ | ⟨a1, b1, a2⟩ | ⟨a1, b1⟩ | ⟨a1, b1, a3, b2⟩
    all_goals simp only [fromFirstLog, List.dropWhile, Call.isLog, Bool.not_true,
      Bool.not_false, List.cons.injEq, Call.log.injEq, Option.some.injEq, true_and,
      reduceCtorEq, false_and, and_false, Call.disconnect.injEq, Call.connect.injEq] at h
    all_goals
      obtain ⟨rfl, rfl, rfl, rfl⟩ := h
    all_goals
      first
        | exact ⟨b2, rfl, Or.inl rfl⟩
        | exact ⟨b2, rfl, Or.inr rfl⟩

theorem BodyShape.logArgs_cases {msg : GoString} {t : List Call} (h : BodyShape msg t) :
    logArgs t = [] ∨ logArgs t = [msg] ∨ logArgs t = [msg, msg] := by
  rcases h with _ | ⟨_, hr⟩ | ⟨_, hr⟩
  · exact Or.inl rfl
  all_goals
    rcases hr with _ | _ | _ | _
    all_goals first | exact Or.inr (Or.inl rfl) | exact Or.inr (Or.inr rfl)

theorem BodyShape.logArgs_bound {msg : GoString} {t : List Call} (h : BodyShape msg t) :
    (logArgs t).length ≤ 2 ∧ ∀ a ∈ logArgs t, a = msg := by
  rcases h.logArgs_cases with h | h | h <;> rw [h] <;> simp

theorem BodyShape.disconnect_count {msg : GoString} {t : List Call} (h : BodyShape msg t) :
    t.countP Call.isDisconnect = t.countP Call.isFailedLog := by
  rcases h with _ | ⟨_, hr⟩ | ⟨_, hr⟩
  · rfl
  all_goals
    rcases hr with _ | _ | _ | _
    all_goals rfl

theorem logArgs_append (t u : List Call) : logArgs (t ++ u) = logArgs t ++ logArgs u := by
  simp [logArgs]

theorem logArgs_segments_length {msgs : List GoString} {segs : List (List Call)}
    (h : List.Forall₂ BodyShape msgs segs) :
    (logArgs segs.flatten).length ≤ 2 * msgs.length := by
  induction h with
  | nil => simp [logArgs]
  | cons hb _ ih =>
    have := hb.logArgs_bound.1
    simp only [List.flatten_cons, logArgs_append, List.length_append, List.length_cons]
    omega

theorem disconnect_count_segments {msgs : List GoString} {segs : List (List Call)}
    (h : List.Forall₂ BodyShape msgs segs) :
    segs.flatten.countP Call.isDisconnect = segs.flatten.countP Call.isFailedLog := by
  induction h with
  | nil => rfl
  | cons hb _ ih =>
    simp only [List.flatten_cons, List.countP_append, hb.disconnect_count, ih]

theorem BodyShape.connect_count {msg : GoString} {t : List Call} (h : BodyShape msg t) :
    (beforeFirstLog t).countP Call.isConnect
        = (if t.head? = some (Call.isConnected false) then 1 else 0)
      ∧ (fromFirstLog t).countP Call.isConnect = (if firstLogFailed t then 1 else 0) := by
  rcases h with _ | ⟨_, hr⟩ | ⟨_, hr⟩
  · exact ⟨rfl, rfl⟩
  all_goals
    rcases hr with _ | _ | _ | _
    all_goals exact ⟨rfl, rfl⟩

theorem countP_before_from (p : Call → Bool) (t : List Call) :
    t.countP p = (beforeFirstLog t).countP p + (fromFirstLog t).countP p := by
  conv_lhs => rw [← List.takeWhile_append_dropWhile (fun c => !c.isLog) t]
  rw [List.countP_append]
  rfl

theorem writerBody_of_lazy_connect {σ : Type} (L : Logger σ) (msg : GoString) (s : σ)
    (hic : (L.IsConnected s).1 = false) (hc : (L.Connect (L.IsConnected s).2).1 = none) :
    ∃ t, RetryShape msg t ∧
      (writerBody L msg s).1 = Call.isConnected false :: Call.connect none :: t := by
  have hi : L.IsConnected s = (false, (L.IsConnected s).2) := by
    rw [← hic]
  have hcn : L.Connect (L.IsConnected s).2 = (none, (L.Connect (L.IsConnected s).2).2) := by
    rw [← hc]
  refine ⟨(logWithRetry L msg (L.Connect (L.IsConnected s).2).2).1,
    logWithRetry_shape L msg _, ?_⟩
  unfold writerBody
  rw [hi]
  simp only
  rw [hcn]

/-! ## The line splitter and the hand-off queue -/

/-- C1: on a byte stream `s` that ends with a plain end of stream, when the
queue has room for every line, `readLines` returns nil and appends to the
queue exactly the reference lines of `s`: the fragments between newlines, in
order, the final unterminated fragment left out when empty and kept when not.
The empty stream pushes nothing, `"1\n2\n3\n"` and `"1\n2\n3"` both push
`["1","2","3"]`, and an empty line in the middle is pushed as `""`. -/
theorem readLines_eq_refLines (s : List Byte) (msgs : Chan)
    (hroom : msgs.buf.length + (refLines s).length ≤ msgs.cap) :
    readLines { data := s, err := Error.EOF } msgs =
        some (none, { data := [], err := Error.EOF },
          { msgs with buf := msgs.buf ++ refLines s })
      ∧ refLines (bytes "") = []
      ∧ refLines (bytes "1\n2\n3\n") = [bytes "1", bytes "2", bytes "3"]
      ∧ refLines (bytes "1\n2\n3") = [bytes "1", bytes "2", bytes "3"]
      ∧ refLines (bytes "a\n\nb\n") = [bytes "a", bytes "", bytes "b"] := by
  refine ⟨?_, by decide, by decide, by decide, by decide⟩
  unfold readLines
  rw [readLinesLoop_EOF _ s msgs (Nat.lt_succ_self _), pushAll_buf_of_room _ _ hroom]

/-- C1 at a concrete input: `"1\n2\n3"` read into an empty queue of capacity
three. -/
theorem readLines_eq_refLines_witness :
    (Chan.make 3).buf.length + (refLines (bytes "1\n2\n3")).length ≤ (Chan.make 3).cap
      ∧ readLines { data := bytes "1\n2\n3", err := Error.EOF } (Chan.make 3) =
        some (none, { data := [], err := Error.EOF },
          { cap := 3, buf := [bytes "1", bytes "2", bytes "3"] }) :=
  ⟨by decide, (readLines_eq_refLines (bytes "1\n2\n3") (Chan.make 3) (by decide)).1⟩

/-- C3: with no receiver taking anything, `readLines` on a stream of `k`
lines and a fresh queue of capacity `N` returns nil and leaves in the queue
exactly the first `min N k` lines in their original order, the later ones
being discarded; with capacity 0 every line is discarded, and with capacity 1
and the three lines of `"a\nb\nc\n"` only `"a"` is queued. -/
theorem readLines_drop_on_full (s : List Byte) (N : Nat) :
    readLines { data := s, err := Error.EOF } (Chan.make N) =
        some (none, { data := [], err := Error.EOF },
          { cap := N, buf := (refLines s).take (min N (refLines s).length) })
      ∧ readLines { data := s, err := Error.EOF } (Chan.make 0) =
        some (none, { data := [], err := Error.EOF }, { cap := 0, buf := [] })
      ∧ readLines { data := bytes "a\nb\nc\n", err := Error.EOF } (Chan.make 1) =
        some (none, { data := [], err := Error.EOF }, { cap := 1, buf := [bytes "a"] }) := by
  have key : ∀ n : Nat, readLines { data := s, err := Error.EOF } (Chan.make n) =
      some (none, { data := [], err := Error.EOF },
        { cap := n, buf := (refLines s).take n }) := by
    intro n
    unfold readLines
    rw [readLinesLoop_EOF _ s _ (Nat.lt_succ_self _),
      pushAll_make _ n (Chan.make n) rfl (by simp [Chan.make])]
    simp [Chan.make]
  refine ⟨?_, ?_, by decide⟩
  · rw [key N]
    congr 3
    rcases Nat.le_total N (refLines s).length with h | h
    · rw [Nat.min_eq_left h]
    · rw [Nat.min_eq_right h, List.take_of_length_le h, List.take_length]
  · rw [key 0]
    simp

/-! ## The delivery loop -/

/-- C2: when `IsConnected` always answers true and `Log` always returns nil,
the writer calls `IsConnected` and then `Log` once for each message, in queue
order, never calls `Connect`, and calls `Disconnect` exactly once, as the
last call of the run. -/
theorem writer_healthy_sink {σ : Type} (L : Logger σ) (msgs : List GoString) (s : σ)
    (hconn : ∀ s, (L.IsConnected s).1 = true) (hlog : ∀ m s, (L.Log m s).1 = none) :
    ∃ d, (writer L msgs s).1 =
          (msgs.map fun m => [Call.isConnected true, Call.log m none]).flatten ++
            [Call.disconnect d]
      ∧ logArgs (writer L msgs s).1 = msgs
      ∧ delivered (writer L msgs s).1 = msgs
      ∧ (writer L msgs s).1.countP Call.isConnect = 0
      ∧ (writer L msgs s).1.countP Call.isDisconnect = 1
      ∧ (writer L msgs s).1.getLast? = some (Call.disconnect d) := by
  refine ⟨(L.Disconnect (writerLoop L msgs s).2).1, ?_⟩
  rw [writer_trace, writerLoop_healthy L msgs hconn hlog]
  refine ⟨rfl, ?_, ?_, ?_, ?_, ?_⟩
  · have := logArgs_healthy msgs
    simp only [logArgs, List.filterMap_append] at this ⊢
    rw [this]
    simp [Call.logArg?]
  · have := delivered_healthy msgs
    simp only [delivered, List.filterMap_append] at this ⊢
    rw [this]
    simp [Call.sent?]
  · rw [List.countP_append, countP_healthy _ rfl (fun _ => rfl)]
    rfl
  · rw [List.countP_append, countP_healthy _ rfl (fun _ => rfl)]
    rfl
  · simp

/-- C2 at a concrete input: three messages through the always-up sink. -/
theorem writer_healthy_sink_witness :
    (∀ n, (alwaysUp.IsConnected n).1 = true) ∧ (∀ m n, (alwaysUp.Log m n).1 = none)
      ∧ ∃ d, (writer alwaysUp [bytes "a", bytes "b", bytes "c"] 0).1 =
          ([bytes "a", bytes "b", bytes "c"].map
              fun m => [Call.isConnected true, Call.log m none]).flatten ++
            [Call.disconnect d]
        ∧ logArgs (writer alwaysUp [bytes "a", bytes "b", bytes "c"] 0).1 =
          [bytes "a", bytes "b", bytes "c"]
        ∧ delivered (writer alwaysUp [bytes "a", bytes "b", bytes "c"] 0).1 =
          [bytes "a", bytes "b", bytes "c"]
        ∧ (writer alwaysUp [bytes "a", bytes "b", bytes "c"] 0).1.countP Call.isConnect = 0
        ∧ (writer alwaysUp [bytes "a", bytes "b", bytes "c"] 0).1.countP Call.isDisconnect = 1
        ∧ (writer alwaysUp [bytes "a", bytes "b", bytes "c"] 0).1.getLast? =
          some (Call.disconnect d) :=
  ⟨fun _ => rfl, fun _ _ => rfl,
    writer_healthy_sink alwaysUp [bytes "a", bytes "b", bytes "c"] 0 (fun _ => rfl)
      (fun _ _ => rfl)⟩

/-- C4: when `IsConnected` answers false and the `Connect` that follows
returns an error, the calls for that message are exactly those two, with no
`Log` and no `Disconnect`, and the loop goes on with the next message from
the state the failed `Connect` left. With `IsConnected` answers
`[true, false, true]`, one failing `Connect`, `Log` returning nil and lines
`[l1, l2, l3]`, the lines passed to `Log` are exactly `[l1, l3]`. -/
theorem writer_lazy_connect_failure {σ : Type} (L : Logger σ) (msg : GoString)
    (rest : List GoString) (s : σ) (e : Error)
    (hic : (L.IsConnected s).1 = false)
    (hc : (L.Connect (L.IsConnected s).2).1 = some e) :
    (writerBody L msg s).1 = [Call.isConnected false, Call.connect (some e)]
      ∧ logArgs (writerBody L msg s).1 = []
      ∧ (writerBody L msg s).1.countP Call.isDisconnect = 0
      ∧ (writer L (msg :: rest) s).1 =
          [Call.isConnected false, Call.connect (some e)] ++
            (writer L rest (L.Connect (L.IsConnected s).2).2).1
      ∧ ∀ l1 l2 l3 : GoString,
          logArgs (writer scripted [l1, l2, l3]
            { isConnected := [true, false, true], connect := [some someErr], log := [],
              disconnect := [] }).1 = [l1, l3] := by
  have hi : L.IsConnected s = (false, (L.IsConnected s).2) := by
    rw [← hic]
  have hcn : L.Connect (L.IsConnected s).2 = (some e, (L.Connect (L.IsConnected s).2).2) := by
    rw [← hc]
  have hb : writerBody L msg s =
      ([Call.isConnected false, Call.connect (some e)], (L.Connect (L.IsConnected s).2).2) := by
    unfold writerBody
    rw [hi]
    simp only
    rw [hcn]
  refine ⟨by rw [hb], by rw [hb]; rfl, by rw [hb]; rfl, ?_, fun _ _ _ => rfl⟩
  rw [writer_trace, writer_trace, writerLoop_cons, hb]
  simp

/-- C4 at a concrete input: a scripted sink that is not connected and whose
next `Connect` fails. -/
theorem writer_lazy_connect_failure_witness :
    (scripted.IsConnected
        { isConnected := [false], connect := [some someErr], log := [], disconnect := [] }).1
        = false
      ∧ (scripted.Connect (scripted.IsConnected
          { isConnected := [false], connect := [some someErr], log := [], disconnect := [] }).2).1
        = some someErr
      ∧ (writerBody scripted (bytes "l2")
          { isConnected := [false], connect := [some someErr], log := [], disconnect := [] }).1
        = [Call.isConnected false, Call.connect (some someErr)] :=
  ⟨rfl, rfl, (writer_lazy_connect_failure scripted (bytes "l2") [bytes "l3"]
    { isConnected := [false], connect := [some someErr], log := [], disconnect := [] }
    someErr rfl rfl).1⟩

/-- C5: when the first `Log` call for a message returns an error, the loop
next calls `Disconnect` and then `Connect`; if that `Connect` succeeds it
calls `Log` again with the same message, and if this second `Log` succeeds
the message is delivered and nothing more is called for it. With the first
`Log` failing once and every `Connect` succeeding, all of `[l1, l2, l3]` are
delivered, whatever `IsConnected` and `Disconnect` answer. -/
theorem writerBody_send_failure_retry {σ : Type} (L : Logger σ) (msg : GoString) (s : σ)
    (e : Error) (rest : List Call)
    (h : fromFirstLog (writerBody L msg s).1 = Call.log msg (some e) :: rest) :
    (∃ d, (∃ e2, rest = [Call.disconnect d, Call.connect (some e2)])
        ∨ (rest = [Call.disconnect d, Call.connect none, Call.log msg none]
            ∧ delivered (writerBody L msg s).1 = [msg])
        ∨ (∃ e3 d2, rest = [Call.disconnect d, Call.connect none, Call.log msg (some e3),
            Call.disconnect d2]))
      ∧ ∀ (l1 l2 l3 : GoString) (ics : List Bool) (ds : List (Option Error)),
          delivered (writer scripted [l1, l2, l3]
            { isConnected := ics, connect := [], log := [some someErr], disconnect := ds }).1
            = [l1, l2, l3] := by
  constructor
  · have hs := writerBody_shape L msg s
    generalize (writerBody L msg s).1 = t at hs h
    rcases hs with _ | ⟨_, hr⟩ | ⟨_, hr⟩
    · simp [fromFirstLog, Call.isLog] at h
    all_goals
      rcases hr with _ | ⟨e1, d1, e2⟩ | ⟨e1, d1⟩ | ⟨e1, d1, e3, d2⟩
      all_goals simp only [fromFirstLog, List.dropWhile, Call.isLog, Bool.not_true,
        Bool.not_false, List.cons.injEq, Call.log.injEq, Option.some.injEq, true_and,
        reduceCtorEq, false_and] at h
      · obtain ⟨-, rfl⟩ := h
        exact ⟨d1, Or.inl ⟨e2, rfl⟩⟩
      · obtain ⟨-, rfl⟩ := h
        exact ⟨d1, Or.inr (Or.inl ⟨rfl, rfl⟩)⟩
      · obtain ⟨-, rfl⟩ := h
        exact ⟨d1, Or.inr (Or.inr ⟨e3, d2, rfl⟩)⟩
  · intro l1 l2 l3 ics ds
    rcases ics with _ | ⟨a, _ | ⟨b, _ | ⟨c, t⟩⟩⟩
    · rfl
    · cases a <;> rfl
    · cases a <;> cases b <;> rfl
    · cases a <;> cases b <;> cases c <;> rfl

/-- C5 at a concrete input: a connected scripted sink whose first `Log`
fails. -/
theorem writerBody_send_failure_retry_witness :
    fromFirstLog (writerBody scripted (bytes "l1")
        { isConnected := [true], connect := [], log := [some someErr], disconnect := [] }).1
        = Call.log (bytes "l1") (some someErr) ::
          [Call.disconnect none, Call.connect none, Call.log (bytes "l1") none]
      ∧ ∃ d, (∃ e2, [Call.disconnect none, Call.connect none, Call.log (bytes "l1") none] =
            [Call.disconnect d, Call.connect (some e2)])
        ∨ ([Call.disconnect none, Call.connect none, Call.log (bytes "l1") none] =
            [Call.disconnect d, Call.connect none, Call.log (bytes "l1") none]
            ∧ delivered (writerBody scripted (bytes "l1")
                { isConnected := [true], connect := [], log := [some someErr],
                  disconnect := [] }).1 = [bytes "l1"])
        ∨ (∃ e3 d2, [Call.disconnect none, Call.connect none, Call.log (bytes "l1") none] =
            [Call.disconnect d, Call.connect none, Call.log (bytes "l1") (some e3),
              Call.disconnect d2]) :=
  ⟨rfl, (writerBody_send_failure_retry scripted (bytes "l1")
    { isConnected := [true], connect := [], log := [some someErr], disconnect := [] }
    someErr _ rfl).1⟩

/-- C6: when the first `Log` for a message fails, the reconnect succeeds and
the second `Log` fails too, the loop calls `Disconnect` once more and nothing
else for that message: two `Log` calls, none delivered, the calls being
exactly `IsConnected, Log, Disconnect, Connect, Log, Disconnect` when
`IsConnected` answered true; the loop then continues with the next message.
With two failing `Log` calls, then successes, and every `Connect` succeeding,
lines `[l1, l2, l3]` deliver exactly `[l2, l3]`. -/
theorem writerBody_retry_failure_drops {σ : Type} (L : Logger σ) (msg : GoString)
    (more : List GoString) (s : σ) (e1 e3 : Error) (d1 : Option Error) (rest : List Call)
    (h : fromFirstLog (writerBody L msg s).1 =
      Call.log msg (some e1) :: Call.disconnect d1 :: Call.connect none ::
        Call.log msg (some e3) :: rest) :
    (∃ d2, rest = [Call.disconnect d2]
        ∧ ((writerBody L msg s).1 =
              [Call.isConnected true, Call.log msg (some e1), Call.disconnect d1,
                Call.connect none, Call.log msg (some e3), Call.disconnect d2]
          ∨ (writerBody L msg s).1 =
              [Call.isConnected false, Call.connect none, Call.log msg (some e1),
                Call.disconnect d1, Call.connect none, Call.log msg (some e3),
                Call.disconnect d2]))
      ∧ logArgs (writerBody L msg s).1 = [msg, msg]
      ∧ delivered (writerBody L msg s).1 = []
      ∧ (writerLoop L (msg :: more) s).1 =
          (writerBody L msg s).1 ++ (writerLoop L more (writerBody L msg s).2).1
      ∧ ∀ (l1 l2 l3 : GoString) (ics : List Bool) (ds : List (Option Error)),
          delivered (writer scripted [l1, l2, l3]
            { isConnected := ics, connect := [], log := [some someErr, some someErr],
              disconnect := ds }).1 = [l2, l3] := by
  have key := writerBody_dropped_trace L msg s e1 e3 d1 rest h
  refine ⟨key, ?_, ?_, rfl, ?_⟩
  · obtain ⟨d2, -, ht | ht⟩ := key <;> rw [ht] <;> rfl
  · obtain ⟨d2, -, ht | ht⟩ := key <;> rw [ht] <;> rfl
  · intro l1 l2 l3 ics ds
    rcases ics with _ | ⟨a, _ | ⟨b, _ | ⟨c, t⟩⟩⟩
    · rfl
    · cases a <;> rfl
    · cases a <;> cases b <;> rfl
    · cases a <;> cases b <;> cases c <;> rfl

/-- C6 at a concrete input: a connected scripted sink whose first two `Log`
calls fail. -/
theorem writerBody_retry_failure_drops_witness :
    fromFirstLog (writerBody scripted (bytes "l1")
        { isConnected := [true], connect := [], log := [some someErr, some someErr],
          disconnect := [] }).1
        = Call.log (bytes "l1") (some someErr) :: Call.disconnect none :: Call.connect none ::
          Call.log (bytes "l1") (some someErr) :: [Call.disconnect none]
      ∧ logArgs (writerBody scripted (bytes "l1")
          { isConnected := [true], connect := [], log := [some someErr, some someErr],
            disconnect := [] }).1 = [bytes "l1", bytes "l1"]
      ∧ delivered (writerBody scripted (bytes "l1")
          { isConnected := [true], connect := [], log := [some someErr, some someErr],
            disconnect := [] }).1 = [] :=
  ⟨rfl, (writerBody_retry_failure_drops scripted (bytes "l1") []
    { isConnected := [true], connect := [], log := [some someErr, some someErr],
      disconnect := [] } someErr someErr none _ rfl).2.1,
    (writerBody_retry_failure_drops scripted (bytes "l1") []
    { isConnected := [true], connect := [], log := [some someErr, some someErr],
      disconnect := [] } someErr someErr none _ rfl).2.2.1⟩

/-- C7: for every list of messages and every sink, the trace of the loop is
the concatenation, in queue order, of one call sequence per message; each
sequence holds at most two `Log` calls, all with that message as argument;
so the whole run makes at most twice as many `Log` calls as there are
messages. -/
theorem writer_bounded_retry {σ : Type} (L : Logger σ) (msgs : List GoString) (s : σ) :
    (writerLoop L msgs s).1 = (writerSegments L msgs s).flatten
      ∧ List.Forall₂ (fun m seg => (logArgs seg).length ≤ 2 ∧ ∀ a ∈ logArgs seg, a = m)
          msgs (writerSegments L msgs s)
      ∧ (logArgs (writer L msgs s).1).length ≤ 2 * msgs.length := by
  refine ⟨writerLoop_eq_segments L msgs s, ?_, ?_⟩
  · exact (writerSegments_shape L msgs s).imp fun _ _ hb => hb.logArgs_bound
  · rw [writer_trace, logArgs_append, writerLoop_eq_segments]
    have := logArgs_segments_length (writerSegments_shape L msgs s)
    simpa [logArgs, Call.logArg?] using this

/-- C8, as the claim states it, fails: with `IsConnected` answering false,
the lazy `Connect` succeeding and the first `Log` failing, two `Connect`
calls are made for the one message. -/
theorem connect_twice_counterexample :
    firstLogFailed (writerBody scripted (bytes "l1")
        { isConnected := [false], connect := [none, some someErr], log := [some someErr],
          disconnect := [] }).1 = true
      ∧ (writerBody scripted (bytes "l1")
        { isConnected := [false], connect := [none, some someErr], log := [some someErr],
          disconnect := [] }).1.countP Call.isConnect = 2 :=
  ⟨rfl, rfl⟩

/-- C8, amended: while a message is processed, one `Connect` is made before
the first `Log` exactly when `IsConnected` answered false (the lazy connect),
and one from the first `Log` on exactly when that `Log` failed (the
reconnect, never a second one); so no message causes more than two `Connect`
calls. -/
theorem writerBody_connect_calls {σ : Type} (L : Logger σ) (msg : GoString) (s : σ) :
    (beforeFirstLog (writerBody L msg s).1).countP Call.isConnect
        = (if (writerBody L msg s).1.head? = some (Call.isConnected false) then 1 else 0)
      ∧ (fromFirstLog (writerBody L msg s).1).countP Call.isConnect
        = (if firstLogFailed (writerBody L msg s).1 then 1 else 0)
      ∧ (writerBody L msg s).1.countP Call.isConnect
        = (if (writerBody L msg s).1.head? = some (Call.isConnected false) then 1 else 0)
          + (if firstLogFailed (writerBody L msg s).1 then 1 else 0)
      ∧ (writerBody L msg s).1.countP Call.isConnect ≤ 2 := by
  have h := (writerBody_shape L msg s).connect_count
  have hsum := countP_before_from Call.isConnect (writerBody L msg s).1
  refine ⟨h.1, h.2, ?_, ?_⟩
  · rw [hsum, h.1, h.2]
  · rw [hsum, h.1, h.2]
    split <;> split <;> omega

/-- C9, as the claim states it, fails: `IsConnected` answers false, the
`Connect` that follows succeeds, the first `Log` fails, the reconnect
succeeds, and `Log` is called a second time for the same message. -/
theorem lazy_connect_two_logs_counterexample :
    (scripted.IsConnected
        { isConnected := [false], connect := [], log := [some someErr], disconnect := [] }).1
        = false
      ∧ (scripted.Connect (scripted.IsConnected
        { isConnected := [false], connect := [], log := [some someErr], disconnect := [] }).2).1
        = none
      ∧ logArgs (writerBody scripted (bytes "l2")
        { isConnected := [false], connect := [], log := [some someErr], disconnect := [] }).1
        = [bytes "l2", bytes "l2"] :=
  ⟨rfl, rfl, rfl⟩

/-- C9, amended: when `IsConnected` answers false and the `Connect` that
follows succeeds, the loop makes one `Log` call for the message, and a second
one exactly when the first `Log` failed and the reconnect after it succeeded;
never more than two. -/
theorem writerBody_lazy_connect_log_calls {σ : Type} (L : Logger σ) (msg : GoString) (s : σ)
    (hic : (L.IsConnected s).1 = false) (hc : (L.Connect (L.IsConnected s).2).1 = none) :
    logArgs (writerBody L msg s).1
        = (if reconnectedAfterFailure (writerBody L msg s).1 then [msg, msg] else [msg])
      ∧ 1 ≤ (logArgs (writerBody L msg s).1).length
      ∧ (logArgs (writerBody L msg s).1).length ≤ 2 := by
  obtain ⟨t, ht, h⟩ := writerBody_of_lazy_connect L msg s hic hc
  rw [h]
  rcases ht with _ | _ | _ | _
  all_goals exact ⟨rfl, by simp [logArgs, Call.logArg?], by simp [logArgs, Call.logArg?]⟩

/-- C9, amended, at a concrete input: a scripted sink that is not connected,
connects on demand and accepts the message at once. -/
theorem writerBody_lazy_connect_log_calls_witness :
    (scripted.IsConnected
        { isConnected := [false], connect := [], log := [], disconnect := [] }).1 = false
      ∧ (scripted.Connect (scripted.IsConnected
          { isConnected := [false], connect := [], log := [], disconnect := [] }).2).1 = none
      ∧ logArgs (writerBody scripted (bytes "l2")
          { isConnected := [false], connect := [], log := [], disconnect := [] }).1
        = [bytes "l2"] :=
  ⟨rfl, rfl, (writerBody_lazy_connect_log_calls scripted (bytes "l2")
    { isConnected := [false], connect := [], log := [], disconnect := [] } rfl rfl).1⟩

/-- C10, as the claim states it, fails: one message whose first `Log` fails
makes the run call `Disconnect` twice, the first time while the message is
still being processed. -/
theorem disconnect_twice_counterexample :
    (writer scripted [bytes "l1"]
        { isConnected := [], connect := [], log := [some someErr], disconnect := [] }).1
        = [Call.isConnected true, Call.log (bytes "l1") (some someErr), Call.disconnect none,
            Call.connect none, Call.log (bytes "l1") none, Call.disconnect none]
      ∧ (writer scripted [bytes "l1"]
        { isConnected := [], connect := [], log := [some someErr], disconnect := [] }).1.countP
          Call.isDisconnect = 2 :=
  ⟨rfl, rfl⟩

/-- C10, amended: for every list of messages and every sink, the run ends
with one `Disconnect` made after the call sequences of all messages; the only
other `Disconnect` calls are one per failed `Log`, so the run has one more
`Disconnect` call than failed `Log` calls. -/
theorem writer_disconnect_calls {σ : Type} (L : Logger σ) (msgs : List GoString) (s : σ) :
    ∃ d, (writer L msgs s).1 = (writerSegments L msgs s).flatten ++ [Call.disconnect d]
      ∧ (writerSegments L msgs s).length = msgs.length
      ∧ (writer L msgs s).1.getLast? = some (Call.disconnect d)
      ∧ (writer L msgs s).1.countP Call.isDisconnect
        = 1 + (writer L msgs s).1.countP Call.isFailedLog := by
  refine ⟨(L.Disconnect (writerLoop L msgs s).2).1, ?_⟩
  rw [writer_trace, writerLoop_eq_segments]
  refine ⟨rfl, (writerSegments_shape L msgs s).length_eq.symm, by simp, ?_⟩
  rw [List.countP_append, List.countP_append,
    disconnect_count_segments (writerSegments_shape L msgs s)]
  simp [Call.isDisconnect, Call.isFailedLog]
  omega

/-! ## Further lemmas on splitting -/

theorem terminatedLines_of_not_mem {s : List Byte} (h : newline ∉ s) :
    terminatedLines s = [] := by
  simp [terminatedLines, fragments_of_not_mem h]

theorem terminatedLines_line {pre : List Byte} (h : newline ∉ pre) (rest : List Byte) :
    terminatedLines (pre ++ newline :: rest) = pre :: terminatedLines rest := by
  unfold terminatedLines
  rw [fragments_line h, List.dropLast_cons_of_ne_nil (fragments_ne_nil rest)]

/-- On a source that fails with an error other than end of stream, the loop
returns that error wrapped, having offered exactly the terminated lines to
the channel. -/
theorem readLinesLoop_error (e : Error) (he : e ≠ Error.EOF) (fuel : Nat) :
    ∀ (s : List Byte) (ch : Chan), s.length < fuel →
      readLinesLoop fuel { data := s, err := e } ch =
        some (some (Error.wrap "error reading from reader" e), { data := [], err := e },
          pushAll ch (terminatedLines s)) := by
  induction fuel with
  | zero => intro s ch h; omega
  | succ n ih =>
    intro s ch hlen
    rcases dropWhile_delim_cases newline s with ⟨h1, h2⟩ | ⟨rest, h1, h2, h3⟩
    · simp [readLinesLoop, Reader.ReadString, h1, he, terminatedLines_of_not_mem h2, pushAll]
    · have hrest : rest.length < n := by
        have := congrArg List.length h2
        simp at this
        omega
      have hl : terminatedLines s =
          s.takeWhile (fun b => b != newline) :: terminatedLines rest := by
        conv_lhs => rw [h2]
        exact terminatedLines_line h3 rest
      simp [readLinesLoop, Reader.ReadString, h1, TrimSuffix_line, ih rest _ hrest, hl,
        pushAll]

theorem pushAll_buf (lines : List GoString) :
    ∀ ch : Chan, ∃ sent, (pushAll ch lines).buf = ch.buf ++ sent := by
  induction lines with
  | nil => intro ch; exact ⟨[], by simp [pushAll]⟩
  | cons l ls ih =>
    intro ch
    by_cases h1 : ch.buf.length < ch.cap
    · obtain ⟨sent, hs⟩ := ih { ch with buf := ch.buf ++ [l] }
      refine ⟨l :: sent, ?_⟩
      simp only [pushAll, List.foldl_cons, Chan.trySend, h1, if_true] at hs ⊢
      rw [hs]
      simp
    · obtain ⟨sent, hs⟩ := ih ch
      refine ⟨sent, ?_⟩
      simp only [pushAll, List.foldl_cons, Chan.trySend, h1, if_false] at hs ⊢
      exact hs

/-- `readLines` returns on every source: nil after a plain end of stream,
an error otherwise. -/
theorem readLines_returns (src : Reader) (msgs : Chan) :
    ∃ err lines, readLines src msgs =
        some (err, { data := [], err := src.err }, pushAll msgs lines)
      ∧ (err = none ↔ src.err = Error.EOF) := by
  obtain ⟨s, e⟩ := src
  by_cases he : e = Error.EOF
  · subst he
    exact ⟨none, refLines s, readLinesLoop_EOF _ s msgs (Nat.lt_succ_self _), by simp⟩
  · exact ⟨_, terminatedLines s, readLinesLoop_error e he _ s msgs (Nat.lt_succ_self _),
      by simp [he]⟩

theorem refLines_joinLines (ls : List GoString) (h : ∀ l ∈ ls, newline ∉ l) :
    refLines (joinLines ls) = ls := by
  induction ls with
  | nil => simp [joinLines, refLines_nil]
  | cons l rest ih =>
    have hl : newline ∉ l := h l (List.mem_cons_self _ _)
    have hrest := ih fun x hx => h x (List.mem_cons_of_mem _ hx)
    have : joinLines (l :: rest) = l ++ newline :: joinLines rest := by
      simp [joinLines]
    rw [this, refLines_line hl, hrest]

/-! ## Further lemmas on the delivery loop -/

theorem delivered_append (t u : List Call) :
    delivered (t ++ u) = delivered t ++ delivered u := by
  simp [delivered]

theorem BodyShape.delivered_cases {msg : GoString} {t : List Call} (h : BodyShape msg t) :
    delivered t = [] ∨ delivered t = [msg] := by
  rcases h with _ | ⟨_, hr⟩ | ⟨_, hr⟩
  · exact Or.inl rfl
  all_goals
    rcases hr with _ | _ | _ | _
    all_goals first | exact Or.inl rfl | exact Or.inr rfl

theorem delivered_segments_sublist {msgs : List GoString} {segs : List (List Call)}
    (h : List.Forall₂ BodyShape msgs segs) : (delivered segs.flatten).Sublist msgs := by
  induction h with
  | nil => exact List.Sublist.slnil
  | cons hb _ ih =>
    rw [List.flatten_cons, delivered_append]
    rcases hb.delivered_cases with hd | hd <;> rw [hd]
    · exact List.Sublist.cons _ ih
    · exact List.Sublist.cons₂ _ ih

theorem logArgs_segments_mem {msgs : List GoString} {segs : List (List Call)}
    (h : List.Forall₂ BodyShape msgs segs) : ∀ a ∈ logArgs segs.flatten, a ∈ msgs := by
  induction h with
  | nil => intro a ha; simp [logArgs] at ha
  | cons hb _ ih =>
    intro a ha
    rw [List.flatten_cons, logArgs_append, List.mem_append] at ha
    rcases ha with ha | ha
    · rw [hb.logArgs_bound.2 a ha]
      exact List.mem_cons_self _ _
    · exact List.mem_cons_of_mem _ (ih a ha)

theorem writerBody_down {σ : Type} (L : Logger σ) (msg : GoString) (s : σ)
    (hdown : ∀ s, (L.IsConnected s).1 = false) (hfail : ∀ s, (L.Connect s).1 ≠ none) :
    ∃ e, (writerBody L msg s).1 = [Call.isConnected false, Call.connect (some e)] := by
  have hi : L.IsConnected s = (false, (L.IsConnected s).2) := by
    rw [← hdown s]
  rcases hc : (L.Connect (L.IsConnected s).2).1 with _ | e
  · exact absurd hc (hfail _)
  · have hcn : L.Connect (L.IsConnected s).2 = (some e, (L.Connect (L.IsConnected s).2).2) := by
      rw [← hc]
    refine ⟨e, ?_⟩
    unfold writerBody
    rw [hi]
    simp only
    rw [hcn]

theorem writerSegments_down {σ : Type} (L : Logger σ) (msgs : List GoString)
    (hdown : ∀ s, (L.IsConnected s).1 = false) (hfail : ∀ s, (L.Connect s).1 ≠ none) :
    ∀ s : σ, List.Forall₂
      (fun (_ : GoString) seg => ∃ e, seg = [Call.isConnected false, Call.connect (some e)])
      msgs (writerSegments L msgs s) := by
  induction msgs with
  | nil => intro s; exact List.Forall₂.nil
  | cons m rest ih =>
    intro s
    exact List.Forall₂.cons (writerBody_down L m s hdown hfail) (ih _)

theorem down_segments_counts {msgs : List GoString} {segs : List (List Call)}
    (h : List.Forall₂
      (fun (_ : GoString) seg => ∃ e, seg = [Call.isConnected false, Call.connect (some e)])
      msgs segs) :
    logArgs segs.flatten = []
      ∧ segs.flatten.countP Call.isIsConnected = msgs.length
      ∧ segs.flatten.countP Call.isConnect = msgs.length
      ∧ segs.flatten.countP Call.isDisconnect = 0 := by
  induction h with
  | nil => exact ⟨rfl, rfl, rfl, rfl⟩
  | cons hb _ ih =>
    obtain ⟨e, rfl⟩ := hb
    obtain ⟨h1, h2, h3, h4⟩ := ih
    simp only [List.flatten_cons, logArgs_append, List.countP_append, h1, h2, h3, h4,
      List.length_cons]
    refine ⟨rfl, ?_, ?_, rfl⟩
    · simp [List.countP_cons, Call.isIsConnected]
      omega
    · simp [List.countP_cons, Call.isConnect]
      omega

/-! ## Order of delivery, round trip, read errors, teardown, construction -/

/-- C11: for every list of messages and every sink, the messages whose `Log`
call returned nil, in call order, form a sublist of the queue (same order,
each queued message delivered at most once), and every `Log` argument is a
message of the queue. -/
theorem writer_delivers_in_order {σ : Type} (L : Logger σ) (msgs : List GoString) (s : σ) :
    (delivered (writer L msgs s).1).Sublist msgs
      ∧ List.Forall₂ (fun m seg => delivered seg = [] ∨ delivered seg = [m])
          msgs (writerSegments L msgs s)
      ∧ ∀ a ∈ logArgs (writer L msgs s).1, a ∈ msgs := by
  have hseg := writerSegments_shape L msgs s
  refine ⟨?_, hseg.imp fun _ _ hb => hb.delivered_cases, ?_⟩
  · rw [writer_trace, delivered_append, writerLoop_eq_segments]
    simpa [delivered, Call.sent?] using delivered_segments_sublist hseg
  · intro a ha
    rw [writer_trace, logArgs_append, writerLoop_eq_segments] at ha
    have ha2 : a ∈ logArgs (writerSegments L msgs s).flatten := by
      simpa [logArgs, Call.logArg?] using ha
    exact logArgs_segments_mem hseg a ha2

/-- C12: for lines `ls` that contain no newline, of any length, `readLines`
on the concatenation of `l ++ "\n"` for `l` in `ls`, with room in the queue
for all of them, returns nil and appends exactly `ls` to the queue, each
line as one element. -/
theorem readLines_joinLines (ls : List GoString) (msgs : Chan)
    (hnl : ∀ l ∈ ls, newline ∉ l) (hroom : msgs.buf.length + ls.length ≤ msgs.cap) :
    readLines { data := joinLines ls, err := Error.EOF } msgs =
      some (none, { data := [], err := Error.EOF }, { msgs with buf := msgs.buf ++ ls }) := by
  have href := refLines_joinLines ls hnl
  unfold readLines
  rw [readLinesLoop_EOF _ _ msgs (Nat.lt_succ_self _), href, pushAll_buf_of_room _ _ hroom]

/-- C12 at a concrete input: four lines, one of them 65537 bytes long, read
into a fresh queue of capacity four. -/
theorem readLines_joinLines_witness :
    (∀ l ∈ largeLines, newline ∉ l)
      ∧ (Chan.make 4).buf.length + largeLines.length ≤ (Chan.make 4).cap
      ∧ readLines { data := joinLines largeLines, err := Error.EOF } (Chan.make 4) =
        some (none, { data := [], err := Error.EOF },
          { Chan.make 4 with buf := (Chan.make 4).buf ++ largeLines }) :=
  have h1 : ∀ l ∈ largeLines, newline ∉ l := by
    intro l hl
    simp only [largeLines, List.mem_cons, List.mem_singleton, List.not_mem_nil, or_false] at hl
    rcases hl with rfl | rfl | rfl | rfl
    · decide
    · intro h
      exact absurd (List.eq_of_mem_replicate h) (by decide)
    · decide
    · decide
  have h2 : (Chan.make 4).buf.length + largeLines.length ≤ (Chan.make 4).cap := by
    decide
  ⟨h1, h2, readLines_joinLines largeLines (Chan.make 4) h1 h2⟩

/-- C13: when the source fails with an error `e` other than end of stream,
`readLines` returns the error `e` wrapped and has offered to the queue
exactly the newline-terminated lines that precede the failure, the fragment
read together with the error being left out; into a fresh queue with room
these are exactly the queued lines. On every source `readLines` returns, and
its result is a non-nil error exactly when the source ended with an error
other than end of stream. -/
theorem readLines_read_error (s : List Byte) (e : Error) (msgs : Chan)
    (he : e ≠ Error.EOF) :
    readLines { data := s, err := e } msgs =
        some (some (Error.wrap "error reading from reader" e), { data := [], err := e },
          pushAll msgs (terminatedLines s))
      ∧ readLines { data := s, err := e } (Chan.make (terminatedLines s).length) =
        some (some (Error.wrap "error reading from reader" e), { data := [], err := e },
          { cap := (terminatedLines s).length, buf := terminatedLines s })
      ∧ ∀ (src : Reader) (ch : Chan), ∃ err src1 ch1,
          readLines src ch = some (err, src1, ch1) ∧ (err ≠ none ↔ src.err ≠ Error.EOF) := by
  have key : ∀ ch : Chan, readLines { data := s, err := e } ch =
      some (some (Error.wrap "error reading from reader" e), { data := [], err := e },
        pushAll ch (terminatedLines s)) := fun ch =>
    readLinesLoop_error e he _ s ch (Nat.lt_succ_self _)
  refine ⟨key msgs, ?_, ?_⟩
  · rw [key, pushAll_buf_of_room _ _ (by simp [Chan.make])]
    simp [Chan.make]
  · intro src ch
    obtain ⟨err, lines, hr, hiff⟩ := readLines_returns src ch
    exact ⟨err, _, _, hr, not_congr hiff⟩

/-- C13 at a concrete input: `"a\nb"` followed by a read error; only `"a"`
is queued. -/
theorem readLines_read_error_witness :
    someErr ≠ Error.EOF
      ∧ readLines { data := bytes "a\nb", err := someErr } (Chan.make 2) =
        some (some (Error.wrap "error reading from reader" someErr),
          { data := [], err := someErr }, { cap := 2, buf := [bytes "a"] }) :=
  ⟨by decide,
    (readLines_read_error (bytes "a\nb") someErr (Chan.make 2) (by decide)).1.trans
      (by decide)⟩

/-- C14: on every source, whether `readLines` returns nil or an error, the
reader goroutine sends what `readLines` sends, then closes the channel once
and then the source once, in that order, and does nothing after that. -/
theorem producer_teardown (src : Reader) (msgs : Chan) :
    ∃ err src1 msgs1 sent,
      readLines src msgs = some (err, src1, msgs1)
        ∧ msgs1.buf = msgs.buf ++ sent
        ∧ producer src msgs =
          some (sent.map ProducerStep.push ++ [ProducerStep.closeMsgs, ProducerStep.closeSrc],
            err, src1, msgs1)
        ∧ (sent.map ProducerStep.push ++
            [ProducerStep.closeMsgs, ProducerStep.closeSrc]).countP ProducerStep.isCloseMsgs = 1
        ∧ (sent.map ProducerStep.push ++
            [ProducerStep.closeMsgs, ProducerStep.closeSrc]).countP ProducerStep.isCloseSrc = 1 := by
  obtain ⟨err, lines, hr, -⟩ := readLines_returns src msgs
  obtain ⟨sent, hs⟩ := pushAll_buf lines msgs
  have hcount : ∀ p : ProducerStep → Bool, (∀ l, p (ProducerStep.push l) = false) →
      (sent.map ProducerStep.push).countP p = 0 := by
    intro p hp
    rw [List.countP_eq_zero]
    intro a ha
    obtain ⟨l, -, rfl⟩ := List.mem_map.mp ha
    simp [hp l]
  refine ⟨err, _, _, sent, hr, hs, ?_, ?_, ?_⟩
  · unfold producer
    rw [hr]
    simp only [hs, List.drop_left]
  · rw [List.countP_append, hcount _ fun _ => rfl]
    rfl
  · rw [List.countP_append, hcount _ fun _ => rfl]
    rfl

/-- C15: `NewForwarder` calls the logger's `Connect` exactly once and makes
no other call, and returns the forwarder holding exactly the given name,
buffer length, source and logger, whatever `Connect` returns. -/
theorem NewForwarder_connects_once {σ : Type} (name : GoString) (bufLen : Nat) (src : Reader)
    (logger : Logger σ) (s : σ) :
    (NewForwarder name bufLen src logger s).2.1 = [Call.connect (logger.Connect s).1]
      ∧ (NewForwarder name bufLen src logger s).2.2 = (logger.Connect s).2
      ∧ (NewForwarder name bufLen src logger s).1.name = name
      ∧ (NewForwarder name bufLen src logger s).1.bufLen = bufLen
      ∧ (NewForwarder name bufLen src logger s).1.src = src
      ∧ (NewForwarder name bufLen src logger s).1.logger = logger
      ∧ (NewForwarder (bytes "") 0 { data := [], err := Error.EOF } alwaysDown 0).2.1
          = [Call.connect (some someErr)]
      ∧ (NewForwarder (bytes "") 0 { data := [], err := Error.EOF } alwaysUp 0).2.1
          = [Call.connect none] :=
  ⟨rfl, rfl, rfl, rfl, rfl, rfl, rfl, rfl⟩

/-- C17: when `IsConnected` always answers false and `Connect` always fails,
the writer makes, for each of the `n` messages, one `IsConnected` call and
one failing `Connect` call, makes no `Log` call, and ends with its one
`Disconnect` call. -/
theorem writer_sink_unavailable {σ : Type} (L : Logger σ) (msgs : List GoString) (s : σ)
    (hdown : ∀ s, (L.IsConnected s).1 = false) (hfail : ∀ s, (L.Connect s).1 ≠ none) :
    ∃ d, (writer L msgs s).1 = (writerSegments L msgs s).flatten ++ [Call.disconnect d]
      ∧ List.Forall₂
          (fun (_ : GoString) seg =>
            ∃ e, seg = [Call.isConnected false, Call.connect (some e)])
          msgs (writerSegments L msgs s)
      ∧ (writer L msgs s).1.countP Call.isIsConnected = msgs.length
      ∧ (writer L msgs s).1.countP Call.isConnect = msgs.length
      ∧ logArgs (writer L msgs s).1 = []
      ∧ (writer L msgs s).1.countP Call.isDisconnect = 1
      ∧ (writer L msgs s).1.getLast? = some (Call.disconnect d) := by
  have hseg := writerSegments_down L msgs hdown hfail s
  obtain ⟨h1, h2, h3, h4⟩ := down_segments_counts hseg
  refine ⟨(L.Disconnect (writerLoop L msgs s).2).1, ?_⟩
  rw [writer_trace, writerLoop_eq_segments]
  refine ⟨rfl, hseg, ?_, ?_, ?_, ?_, by simp⟩
  · rw [List.countP_append, h2]
    rfl
  · rw [List.countP_append, h3]
    rfl
  · rw [logArgs_append, h1]
    rfl
  · rw [List.countP_append, h4]
    rfl

/-- C17 at a concrete input: three messages through the always-down sink. -/
theorem writer_sink_unavailable_witness :
    (∀ n, (alwaysDown.IsConnected n).1 = false) ∧ (∀ n, (alwaysDown.Connect n).1 ≠ none)
      ∧ (writer alwaysDown [bytes "a", bytes "b", bytes "c"] 0).1 =
        [Call.isConnected false, Call.connect (some someErr),
          Call.isConnected false, Call.connect (some someErr),
          Call.isConnected false, Call.connect (some someErr), Call.disconnect none]
      ∧ ∃ d, (writer alwaysDown [bytes "a", bytes "b", bytes "c"] 0).1 =
          (writerSegments alwaysDown [bytes "a", bytes "b", bytes "c"] 0).flatten ++
            [Call.disconnect d]
        ∧ List.Forall₂
            (fun (_ : GoString) seg =>
              ∃ e, seg = [Call.isConnected false, Call.connect (some e)])
            [bytes "a", bytes "b", bytes "c"]
            (writerSegments alwaysDown [bytes "a", bytes "b", bytes "c"] 0)
        ∧ (writer alwaysDown [bytes "a", bytes "b", bytes "c"] 0).1.countP Call.isIsConnected
            = [bytes "a", bytes "b", bytes "c"].length
        ∧ (writer alwaysDown [bytes "a", bytes "b", bytes "c"] 0).1.countP Call.isConnect
            = [bytes "a", bytes "b", bytes "c"].length
        ∧ logArgs (writer alwaysDown [bytes "a", bytes "b", bytes "c"] 0).1 = []
        ∧ (writer alwaysDown [bytes "a", bytes "b", bytes "c"] 0).1.countP Call.isDisconnect = 1
        ∧ (writer alwaysDown [bytes "a", bytes "b", bytes "c"] 0).1.getLast? =
            some (Call.disconnect d) :=
  ⟨fun _ => rfl, fun _ => by simp [alwaysDown], rfl,
    writer_sink_unavailable alwaysDown [bytes "a", bytes "b", bytes "c"] 0 (fun _ => rfl)
      (fun _ => by simp [alwaysDown])⟩


/-! ## Lemmas on maps -/

theorem lookup_filter_ne (m : GoMap) (k k1 : GoString) (h : k1 ≠ k) :
    List.lookup k1 (m.filter fun e => e.1 != k) = List.lookup k1 m := by
  induction m with
  | nil => rfl
  | cons a rest ih =>
    obtain ⟨ak, av⟩ := a
    by_cases hak : ak = k
    · subst hak
      have hne : (k1 == ak) = false := by simpa using h
      simp [List.filter, List.lookup_cons, hne, ih]
    · have hb : (ak != k) = true := by simpa using hak
      simp only [List.filter, hb, List.lookup_cons, ih]

theorem mapGet_mapSet (m : GoMap) (k v k1 : GoString) :
    mapGet (mapSet m k v) k1 = if k1 = k then some v else mapGet m k1 := by
  unfold mapGet mapSet
  by_cases h : k1 = k
  · subst h
    simp
  · have hne : (k1 == k) = false := by simpa using h
    simp only [List.lookup_cons, hne, h, if_false]
    exact lookup_filter_ne m k k1 h

theorem mapKeys_mapSet_nodup (m : GoMap) (k v : GoString) (h : (mapKeys m).Nodup) :
    (mapKeys (mapSet m k v)).Nodup := by
  unfold mapKeys mapSet at *
  rw [List.map_cons, List.nodup_cons]
  constructor
  · intro hk
    obtain ⟨e, he, hek⟩ := List.mem_map.mp hk
    have := (List.mem_filter.mp he).2
    simp at this
    exact this hek
  · exact (List.filter_sublist m).map Prod.fst |>.nodup h

theorem mapGet_foldl_mapSet (kvs : List (GoString × GoString)) :
    ∀ (m : GoMap) (k : GoString),
      mapGet (kvs.foldl (fun r kv => mapSet r kv.1 kv.2) m) k
        = (List.lookup k kvs.reverse).or (mapGet m k) := by
  induction kvs with
  | nil => intro m k; simp
  | cons kv rest ih =>
    intro m k
    obtain ⟨a, b⟩ := kv
    rw [List.foldl_cons, ih, List.reverse_cons, List.lookup_append, mapGet_mapSet]
    cases List.lookup k rest.reverse with
    | some v => rfl
    | none =>
      by_cases h : k = a
      · subst h
        simp
      · have hne : (k == a) = false := by simpa using h
        simp [List.lookup_cons, hne, h]

theorem foldl_mapSet_nodup (kvs : List (GoString × GoString)) :
    ∀ m : GoMap, (mapKeys m).Nodup →
      (mapKeys (kvs.foldl (fun r kv => mapSet r kv.1 kv.2) m)).Nodup := by
  induction kvs with
  | nil => intro m h; exact h
  | cons kv rest ih =>
    intro m h
    exact ih _ (mapKeys_mapSet_nodup m kv.1 kv.2 h)

theorem lookup_reverse_of_nodup (m : GoMap) (h : (mapKeys m).Nodup) (k : GoString) :
    List.lookup k m.reverse = List.lookup k m := by
  induction m with
  | nil => rfl
  | cons a rest ih =>
    obtain ⟨ak, av⟩ := a
    have hnd : ak ∉ mapKeys rest ∧ (mapKeys rest).Nodup := by
      simpa [mapKeys] using h
    rw [List.reverse_cons, List.lookup_append, ih hnd.2]
    by_cases hk : k = ak
    · subst hk
      have hnone : List.lookup k rest = none := by
        rw [List.lookup_eq_none_iff]
        intro p hp
        have : p.1 ≠ k := fun hpk => hnd.1 (hpk ▸ List.mem_map_of_mem Prod.fst hp)
        simpa using Ne.symm this
      simp [hnone]
    · have hne : (k == ak) = false := by simpa using hk
      simp [List.lookup_cons, hne]

/-! ## Lemmas on `parseExtraAttrs` -/

theorem Split_length (e : GoString) (sep : Byte) :
    (Split e sep).length = e.count sep + 1 := by
  unfold Split List.splitOn
  induction e with
  | nil => simp
  | cons a rest ih =>
    rw [List.splitOnP_cons, List.count_cons]
    by_cases h : a = sep
    · subst h
      simp [ih]
    · have hne : (a == sep) = false := by simpa using h
      simp [hne, ih]

theorem parseExtraAttrs_step (trim : GoString → GoString) (extra : GoMap) (e : GoString) :
    (if (Split (trim e) equalsSign).length = 2 then
        mapSet extra (trim ((Split (trim e) equalsSign).getD 0 []))
          (trim ((Split (trim e) equalsSign).getD 1 []))
      else extra)
      = (keyValue? trim e).toList.foldl (fun r kv => mapSet r kv.1 kv.2) extra := by
  unfold keyValue? Split
  rcases (trim e).splitOn equalsSign with _ | ⟨a, _ | ⟨b, _ | ⟨c, l⟩⟩⟩ <;> simp

theorem parseExtraAttrs_foldl (trim : GoString → GoString) (entries : List GoString) :
    ∀ extra : GoMap,
      entries.foldl
          (fun extra e =>
            let parts := Split (trim e) equalsSign
            if parts.length = 2 then
              mapSet extra (trim (parts.getD 0 [])) (trim (parts.getD 1 []))
            else extra)
          extra
        = (entries.filterMap (keyValue? trim)).foldl (fun r kv => mapSet r kv.1 kv.2) extra := by
  induction entries with
  | nil => intro extra; rfl
  | cons e rest ih =>
    intro extra
    rw [List.foldl_cons, ih]
    simp only [parseExtraAttrs_step]
    rw [List.filterMap_cons]
    cases keyValue? trim e <;> rfl

theorem parseExtraAttrs_eq (trim : GoString → GoString) (s : GoString) :
    parseExtraAttrs trim s
      = (wellFormedEntries trim s).foldl (fun r kv => mapSet r kv.1 kv.2) [] := by
  unfold parseExtraAttrs wellFormedEntries
  exact parseExtraAttrs_foldl trim _ []

theorem keyValue?_isSome (trim : GoString → GoString) (e : GoString) :
    (keyValue? trim e).isSome = true ↔ (trim e).count equalsSign = 1 := by
  have hlen := Split_length (trim e) equalsSign
  unfold Split at hlen
  unfold keyValue?
  generalize (trim e).splitOn equalsSign = parts at hlen ⊢
  rcases parts with _ | ⟨a, _ | ⟨b, _ | ⟨c, l⟩⟩⟩
  · simp at hlen
  · simp only [List.length_cons, List.length_nil] at hlen
    simp only [Option.isSome_none, Bool.false_eq_true, false_iff]
    omega
  · simp only [List.length_cons, List.length_nil] at hlen
    simp only [Option.isSome_some, true_iff]
    omega
  · simp only [List.length_cons] at hlen
    simp only [Option.isSome_none, Bool.false_eq_true, false_iff]
    omega

theorem mapGet_baseRecord (msg stream k : GoString) :
    mapGet [(bytes "log", msg), (bytes "stream", stream)] k
      = if k = bytes "log" then some msg
        else if k = bytes "stream" then some stream else none := by
  unfold mapGet
  by_cases h1 : k = bytes "log"
  · subst h1
    simp
  · have hne1 : (k == bytes "log") = false := by simpa using h1
    by_cases h2 : k = bytes "stream"
    · subst h2
      simp [List.lookup_cons, hne1, h1]
    · have hne2 : (k == bytes "stream") = false := by simpa using h2
      simp [List.lookup_cons, hne1, hne2, h1, h2]

/-! ## `FluentLogger` and `parseExtraAttrs` -/

/-- C16, as the claim states it, fails: on a logger whose flag is false,
`Disconnect` still calls the client's `Disconnect` and returns the error the
client returned. -/
theorem disconnect_unconnected_counterexample :
    (FluentLogger.Disconnect
        { tag := bytes "tag", stream := bytes "stdout", extra := [],
          c := ({ send := [], reconnect := [], disconnect := [some someErr] } : ClientScript),
          connected := false } scriptedClient).1 = some someErr
      ∧ (FluentLogger.Disconnect
        { tag := bytes "tag", stream := bytes "stdout", extra := [],
          c := ({ send := [], reconnect := [], disconnect := [some someErr] } : ClientScript),
          connected := false } scriptedClient).2.2 = [ClientCall.disconnect (some someErr)] :=
  ⟨rfl, rfl⟩

/-- C16, amended: on a logger whose flag is false, `Disconnect` calls the
client's `Disconnect` exactly once, returns exactly what that call returned,
and leaves the flag false and every field but the client as it was. -/
theorem FluentLogger_Disconnect_unconnected {γ : Type} (C : MessageClient γ)
    (w : FluentLogger γ) (h : w.connected = false) :
    (w.Disconnect C).2.2 = [ClientCall.disconnect (C.Disconnect w.c).1]
      ∧ (w.Disconnect C).1 = (C.Disconnect w.c).1
      ∧ (w.Disconnect C).2.1 = { w with c := (C.Disconnect w.c).2 } := by
  obtain ⟨tag, stream, extra, c, connected⟩ := w
  simp only at h
  subst h
  exact ⟨rfl, rfl, rfl⟩

/-- C16, amended, at a concrete input: an unconnected logger over a client
whose `Disconnect` returns nil. -/
theorem FluentLogger_Disconnect_unconnected_witness :
    (FluentLogger.Disconnect
        { tag := bytes "tag", stream := bytes "stdout", extra := [],
          c := ({ send := [], reconnect := [], disconnect := [] } : ClientScript),
          connected := false } scriptedClient).2.2 = [ClientCall.disconnect none]
      ∧ (FluentLogger.Disconnect
        { tag := bytes "tag", stream := bytes "stdout", extra := [],
          c := ({ send := [], reconnect := [], disconnect := [] } : ClientScript),
          connected := false } scriptedClient).1 = none :=
  ⟨(FluentLogger_Disconnect_unconnected scriptedClient
      { tag := bytes "tag", stream := bytes "stdout", extra := [],
        c := ({ send := [], reconnect := [], disconnect := [] } : ClientScript),
        connected := false } rfl).1,
    (FluentLogger_Disconnect_unconnected scriptedClient
      { tag := bytes "tag", stream := bytes "stdout", extra := [],
        c := ({ send := [], reconnect := [], disconnect := [] } : ClientScript),
        connected := false } rfl).2.1⟩

/-- C18, as the claim states it, fails: when `extra` has the key `"log"`,
the record sent maps `"log"` to the value in `extra`, not to the message. -/
theorem log_key_overridden_counterexample :
    (FluentLogger.Log
        { tag := bytes "tag", stream := bytes "stdout", extra := [(bytes "log", bytes "x")],
          c := ({ send := [], reconnect := [], disconnect := [] } : ClientScript),
          connected := false } scriptedClient (bytes "hello")).2.2
        = [ClientCall.sendMessage (bytes "tag")
            [(bytes "log", bytes "x"), (bytes "stream", bytes "stdout")] none]
      ∧ mapGet [(bytes "log", bytes "x"), (bytes "stream", bytes "stdout")] (bytes "log")
        ≠ some (bytes "hello") := by
  decide

/-- C18, amended: `Log` calls the client's `SendMessage` exactly once, with
the logger's tag and a record that maps every key of `extra` to its value in
`extra`, and, where `extra` has no such key, `"log"` to the message and
`"stream"` to the logger's stream, and has no other keys; `Log` returns
exactly the error `SendMessage` returned and leaves every field of the
logger but the client as it was. -/
theorem FluentLogger_Log_record {γ : Type} (C : MessageClient γ) (w : FluentLogger γ)
    (msg : GoString) (hkeys : (mapKeys w.extra).Nodup) :
    ∃ record,
      (w.Log C msg).2.2
          = [ClientCall.sendMessage w.tag record (C.SendMessage w.tag record w.c).1]
        ∧ (w.Log C msg).1 = (C.SendMessage w.tag record w.c).1
        ∧ (w.Log C msg).2.1 = { w with c := (C.SendMessage w.tag record w.c).2 }
        ∧ (mapKeys record).Nodup
        ∧ ∀ k, mapGet record k
            = (mapGet w.extra k).or
                (if k = bytes "log" then some msg
                  else if k = bytes "stream" then some w.stream else none) := by
  refine ⟨w.extra.foldl (fun (r : GoMap) (kv : GoString × GoString) => mapSet r kv.1 kv.2)
    [(bytes "log", msg), (bytes "stream", w.stream)], rfl, rfl, rfl, ?_, ?_⟩
  · apply foldl_mapSet_nodup
    simp only [mapKeys, List.map_cons, List.map_nil, List.nodup_cons, List.mem_singleton,
      List.not_mem_nil, not_false_eq_true, List.nodup_nil, and_true]
    decide
  · intro k
    rw [mapGet_foldl_mapSet, lookup_reverse_of_nodup _ hkeys, mapGet_baseRecord]
    rfl

/-- C18, amended, at a concrete input: the logger of the test, with
`extra = {"foo": "bar"}`. -/
theorem FluentLogger_Log_record_witness :
    (mapKeys [(bytes "foo", bytes "bar")]).Nodup
      ∧ ∃ record,
        (FluentLogger.Log
            { tag := bytes "tag", stream := bytes "stream",
              extra := [(bytes "foo", bytes "bar")],
              c := ({ send := [], reconnect := [], disconnect := [] } : ClientScript),
              connected := false } scriptedClient (bytes "hello")).2.2
            = [ClientCall.sendMessage (bytes "tag") record none]
          ∧ mapGet record (bytes "log") = some (bytes "hello")
          ∧ mapGet record (bytes "stream") = some (bytes "stream")
          ∧ mapGet record (bytes "foo") = some (bytes "bar") :=
  ⟨by decide,
    (FluentLogger_Log_record scriptedClient
      { tag := bytes "tag", stream := bytes "stream", extra := [(bytes "foo", bytes "bar")],
        c := ({ send := [], reconnect := [], disconnect := [] } : ClientScript),
        connected := false } (bytes "hello") (by decide)).elim
      fun record h =>
        ⟨record, h.1, (h.2.2.2.2 _).trans (by decide), (h.2.2.2.2 _).trans (by decide),
          (h.2.2.2.2 _).trans (by decide)⟩⟩

/-- C19: a logger built by `NewFluentLogger` is not connected; after
`Connect` the logger is connected exactly when the client's `Reconnect`
returned nil, and `Connect` returns the client's error wrapped, so an error
exactly when `Reconnect` did; after `Disconnect` the logger is not connected
whatever the client returned, and `Disconnect` returns exactly the client's
result; `Log` and `IsConnected` leave the flag as it was. -/
theorem FluentLogger_connected_flag {γ : Type} (C : MessageClient γ)
    (newClient : GoString → GoString → γ) (network addr tag stream : GoString)
    (extra : GoMap) (w : FluentLogger γ) (msg : GoString) :
    (NewFluentLogger newClient network addr tag stream extra).IsConnected = false
      ∧ ((w.Connect C).2.1.IsConnected = true ↔ (C.Reconnect w.c).1 = none)
      ∧ (w.Connect C).1 = (C.Reconnect w.c).1.map (Error.wrap "error connecting logger")
      ∧ ((w.Connect C).1 ≠ none ↔ (C.Reconnect w.c).1 ≠ none)
      ∧ (w.Disconnect C).2.1.IsConnected = false
      ∧ (w.Disconnect C).1 = (C.Disconnect w.c).1
      ∧ (w.Log C msg).2.1.IsConnected = w.IsConnected := by
  refine ⟨rfl, ?_, ?_, ?_, rfl, rfl, rfl⟩
  all_goals
    unfold FluentLogger.Connect
    rcases hr : C.Reconnect w.c with ⟨_ | e, c1⟩ <;> simp [FluentLogger.IsConnected]

/-- C20: for every string `s`, the map `parseExtraAttrs` returns has, for
every key, the value of the last well-formed entry of `s` with that key, and
no other key: an entry is well formed when, trimmed, it holds exactly one
`'='`, and gives the trimmed text before it as key and the trimmed text
after it as value. `""`, `"foo"` and `"foo,bar,baz"` give the empty map. -/
theorem parseExtraAttrs_spec (TrimSpace : GoString → GoString) (s : GoString) :
    (∀ k, mapGet (parseExtraAttrs TrimSpace s) k
        = List.lookup k (wellFormedEntries TrimSpace s).reverse)
      ∧ (mapKeys (parseExtraAttrs TrimSpace s)).Nodup
      ∧ (∀ e, (keyValue? TrimSpace e).isSome = true ↔ (TrimSpace e).count equalsSign = 1)
      ∧ parseExtraAttrs trimASCIISpace (bytes "") = []
      ∧ parseExtraAttrs trimASCIISpace (bytes "foo") = []
      ∧ parseExtraAttrs trimASCIISpace (bytes "foo,bar,baz") = []
      ∧ parseExtraAttrs trimASCIISpace (bytes "foo=bar,baz,qux=quxx")
          = [(bytes "qux", bytes "quxx"), (bytes "foo", bytes "bar")]
      ∧ parseExtraAttrs trimASCIISpace (bytes " foo= bar, baz=qux,   a=   b ,c=d")
          = [(bytes "c", bytes "d"), (bytes "a", bytes "b"), (bytes "baz", bytes "qux"),
              (bytes "foo", bytes "bar")]
      ∧ parseExtraAttrs trimASCIISpace (bytes "k=1,k=2,a=b=c") = [(bytes "k", bytes "2")] := by
  refine ⟨?_, ?_, keyValue?_isSome TrimSpace, by decide, by decide, by decide, by decide,
    by decide, by decide⟩
  · intro k
    rw [parseExtraAttrs_eq, mapGet_foldl_mapSet]
    simp [mapGet]
  · rw [parseExtraAttrs_eq]
    exact foldl_mapSet_nodup _ [] List.nodup_nil


/-! ## Lemmas on `parseLocation` -/

theorem Index_eq_none (sep : GoString) :
    ∀ s : GoString, Index s sep = none → ∀ j, ¬ sep <+: s.drop j := by
  intro s
  induction s with
  | nil =>
    intro h j
    simp only [Index] at h
    split at h
    · exact absurd h (by simp)
    · rename_i hp
      simpa using hp
  | cons b s ih =>
    intro h j
    simp only [Index] at h
    split at h
    · exact absurd h (by simp)
    · rename_i hp
      have hs : Index s sep = none := by simpa using h
      cases j with
      | zero => simpa using hp
      | succ j => simpa using ih hs j

theorem Index_eq_some (sep : GoString) :
    ∀ (s : GoString) (m : Nat), Index s sep = some m →
      sep <+: s.drop m ∧ ∀ j, j < m → ¬ sep <+: s.drop j := by
  intro s
  induction s with
  | nil =>
    intro m h
    simp only [Index] at h
    split at h
    · rename_i hp
      have hm : m = 0 := by simpa using h.symm
      subst hm
      exact ⟨by simpa using hp, fun j hj => absurd hj (Nat.not_lt_zero j)⟩
    · exact absurd h (by simp)
  | cons b s ih =>
    intro m h
    simp only [Index] at h
    split at h
    · rename_i hp
      have hm : m = 0 := by simpa using h.symm
      subst hm
      exact ⟨by simpa using hp, fun j hj => absurd hj (Nat.not_lt_zero j)⟩
    · rename_i hp
      obtain ⟨m1, hm1, rfl⟩ : ∃ m1, Index s sep = some m1 ∧ m1 + 1 = m := by
        simpa using h
      obtain ⟨h1, h2⟩ := ih m1 hm1
      refine ⟨by simpa using h1, ?_⟩
      intro j hj
      cases j with
      | zero => simpa using hp
      | succ j => simpa using h2 j (by omega)

theorem infix_iff_prefix_drop (sep s : GoString) :
    sep <:+: s ↔ ∃ j, sep <+: s.drop j := by
  constructor
  · rintro ⟨a, b, rfl⟩
    exact ⟨a.length, b, by simp⟩
  · rintro ⟨j, t, ht⟩
    refine ⟨s.take j, t, ?_⟩
    rw [List.append_assoc, ht, List.take_append_drop]

theorem parseLocation_eq (loc : GoString) :
    parseLocation loc =
      match Index loc schemeSep with
      | none => (bytes "tcp", loc)
      | some m => (loc.take m, loc.drop (m + schemeSep.length)) := by
  unfold parseLocation
  cases h : Index loc schemeSep <;> simp [SplitN, h]

/-! ## `parseLocation` -/

/-- C21: for every string `loc`, either `loc` does not contain `"://"` and
`parseLocation` returns `("tcp", loc)`, or it does and the result is the text
before the first occurrence and the text after it: network, `"://"` and
address concatenate to `loc`, network contains no `"://"`, and no other
occurrence of `"://"` in `loc` starts earlier. -/
theorem parseLocation_spec (loc : GoString) :
    ((¬ schemeSep <:+: loc ∧ parseLocation loc = (bytes "tcp", loc))
        ∨ (schemeSep <:+: loc
          ∧ (parseLocation loc).1 ++ schemeSep ++ (parseLocation loc).2 = loc
          ∧ ¬ schemeSep <:+: (parseLocation loc).1
          ∧ ∀ pre post, loc = pre ++ schemeSep ++ post →
              (parseLocation loc).1.length ≤ pre.length))
      ∧ parseLocation (bytes "localhost:1234") = (bytes "tcp", bytes "localhost:1234")
      ∧ parseLocation (bytes "udp://localhost:1234") = (bytes "udp", bytes "localhost:1234")
      ∧ parseLocation (bytes "unix:///path/to/sock") = (bytes "unix", bytes "/path/to/sock")
      ∧ parseLocation (bytes "a://b://c") = (bytes "a", bytes "b://c") := by
  refine ⟨?_, by decide, by decide, by decide, by decide⟩
  rw [parseLocation_eq]
  cases h : Index loc schemeSep with
  | none =>
    left
    refine ⟨?_, rfl⟩
    rw [infix_iff_prefix_drop]
    rintro ⟨j, hj⟩
    exact Index_eq_none schemeSep loc h j hj
  | some m =>
    right
    obtain ⟨⟨t, ht⟩, hmin⟩ := Index_eq_some schemeSep loc m h
    have hdrop : loc.drop (m + schemeSep.length) = t := by
      rw [← List.drop_drop, ← ht]
      simp
    refine ⟨(infix_iff_prefix_drop _ _).mpr ⟨m, t, ht⟩, ?_, ?_, ?_⟩
    · simp only [hdrop]
      rw [List.append_assoc, ht, List.take_append_drop]
    · rintro ⟨a, b, hab⟩
      have hlen : a.length + schemeSep.length + b.length ≤ m := by
        have h1 := congrArg List.length hab
        simp only [List.length_append, List.length_take] at h1
        omega
      have hsep : 0 < schemeSep.length := by decide
      refine hmin a.length (by omega) ⟨b ++ loc.drop m, ?_⟩
      have hloc : loc = a ++ schemeSep ++ b ++ loc.drop m := by
        rw [hab, List.take_append_drop]
      conv_rhs => rw [hloc]
      simp
    · intro pre post hpp
      simp only
      by_contra hlt
      have hlt2 : pre.length < m := by
        have := List.length_take_le m loc
        omega
      refine hmin pre.length hlt2 ⟨post, ?_⟩
      rw [hpp]
      simp

/-! ## Lemmas on neighbouring calls -/

theorem followedByCheck_sound (target good : Call → Bool) :
    ∀ t : List Call, followedByCheck target good t = true → FollowedBy target good t := by
  intro t
  induction t with
  | nil =>
    intro _ pre c post h
    exact absurd h (by simp)
  | cons x t ih =>
    intro hchk pre c post h htc
    simp only [followedByCheck, Bool.and_eq_true, Bool.or_eq_true, Bool.not_eq_true'] at hchk
    cases pre with
    | nil =>
      simp only [List.nil_append, List.cons.injEq] at h
      obtain ⟨rfl, rfl⟩ := h
      rcases hchk.1 with hx | hx
      · rw [hx] at htc
        exact absurd htc (by simp)
      · cases t with
        | nil => simp at hx
        | cons g t1 => exact ⟨g, t1, rfl, by simpa using hx⟩
    | cons y pre1 =>
      simp only [List.cons_append, List.cons.injEq] at h
      exact ih hchk.2 pre1 c post h.2 htc

theorem precededBy_of_check (target good : Call → Bool) (t : List Call)
    (h : followedByCheck target good t.reverse = true) : PrecededBy target good t := by
  intro pre c post ht htc
  have hrev : t.reverse = post.reverse ++ c :: pre.reverse := by
    rw [ht]
    simp
  obtain ⟨g, r, hr, hg⟩ := followedByCheck_sound target good _ h _ c _ hrev htc
  refine ⟨r.reverse, g, ?_, hg⟩
  have := congrArg List.reverse hr
  simpa using this

theorem followedBy_append {target good : Call → Bool} {a b : List Call}
    (ha : FollowedBy target good a) (hb : FollowedBy target good b) :
    FollowedBy target good (a ++ b) := by
  intro pre c post h htc
  rcases List.append_eq_append_iff.mp h with ⟨a1, hpre, hb1⟩ | ⟨c1, ha1, hc1⟩
  · exact hb a1 c post hb1 htc
  · cases c1 with
    | nil =>
      simp only [List.nil_append] at hc1
      exact hb [] c post hc1.symm htc
    | cons x c2 =>
      simp only [List.cons_append, List.cons.injEq] at hc1
      obtain ⟨rfl, rfl⟩ := hc1
      obtain ⟨g, p1, hp, hg⟩ := ha pre c c2 ha1 htc
      exact ⟨g, p1 ++ b, by rw [hp]; rfl, hg⟩

theorem precededBy_append {target good : Call → Bool} {a b : List Call}
    (ha : PrecededBy target good a) (hb : PrecededBy target good b) :
    PrecededBy target good (a ++ b) := by
  intro pre c post h htc
  rcases List.append_eq_append_iff.mp h with ⟨a1, hpre, hb1⟩ | ⟨c1, ha1, hc1⟩
  · obtain ⟨p1, g, hp, hg⟩ := hb a1 c post hb1 htc
    exact ⟨a ++ p1, g, by rw [hpre, hp, List.append_assoc], hg⟩
  · cases c1 with
    | nil =>
      simp only [List.nil_append] at hc1
      obtain ⟨p1, g, hp, hg⟩ := hb [] c post hc1.symm htc
      exact absurd hp (by simp)
    | cons x c2 =>
      simp only [List.cons_append, List.cons.injEq] at hc1
      obtain ⟨rfl, rfl⟩ := hc1
      exact ha pre c c2 ha1 htc

theorem BodyShape.neighbours {msg : GoString} {t : List Call} (h : BodyShape msg t) :
    FollowedBy Call.isFailedLog Call.isDisconnect t
      ∧ PrecededBy Call.isDisconnect Call.isFailedLog t
      ∧ PrecededBy Call.isLog Call.permitsLog t
      ∧ ∃ b rest, t = Call.isConnected b :: rest ∧ rest.countP Call.isIsConnected = 0 := by
  rcases h with _ | ⟨_, hr⟩ | ⟨_, hr⟩
  · exact ⟨followedByCheck_sound _ _ _ rfl, precededBy_of_check _ _ _ rfl,
      precededBy_of_check _ _ _ rfl, _, _, rfl, rfl⟩
  all_goals
    rcases hr with _ | _ | _ | _
    all_goals
      exact ⟨followedByCheck_sound _ _ _ rfl, precededBy_of_check _ _ _ rfl,
        precededBy_of_check _ _ _ rfl, _, _, rfl, rfl⟩

theorem segments_neighbours {msgs : List GoString} {segs : List (List Call)}
    (h : List.Forall₂ BodyShape msgs segs) :
    FollowedBy Call.isFailedLog Call.isDisconnect segs.flatten
      ∧ PrecededBy Call.isDisconnect Call.isFailedLog segs.flatten
      ∧ PrecededBy Call.isLog Call.permitsLog segs.flatten
      ∧ segs.flatten.countP Call.isIsConnected = msgs.length := by
  induction h with
  | nil =>
    exact ⟨followedByCheck_sound _ _ _ rfl, precededBy_of_check _ _ _ rfl,
      precededBy_of_check _ _ _ rfl, rfl⟩
  | cons hb _ ih =>
    obtain ⟨h1, h2, h3, b, rest, rfl, hc⟩ := hb.neighbours
    obtain ⟨i1, i2, i3, i4⟩ := ih
    refine ⟨followedBy_append h1 i1, precededBy_append h2 i2, precededBy_append h3 i3, ?_⟩
    rw [List.flatten_cons, List.countP_append, i4, List.countP_cons, hc]
    simp [Call.isIsConnected]
    omega

/-! ## Disconnects and guarded sends -/

/-- C22: in every run of the writer, each `Log` call that returned an error
is immediately followed by a `Disconnect` call, the last call of the run is
a `Disconnect`, every `Disconnect` call is either that last call or comes
immediately after a failed `Log`, and so the run has one more `Disconnect`
call than it has failed `Log` calls. -/
theorem writer_failed_log_disconnects {σ : Type} (L : Logger σ) (msgs : List GoString)
    (s : σ) :
    FollowedBy Call.isFailedLog Call.isDisconnect (writer L msgs s).1
      ∧ (∃ d, (writer L msgs s).1.getLast? = some (Call.disconnect d))
      ∧ (∀ pre d post, (writer L msgs s).1 = pre ++ Call.disconnect d :: post →
          post = [] ∨ ∃ pre1 g, pre = pre1 ++ [g] ∧ g.isFailedLog = true)
      ∧ (writer L msgs s).1.countP Call.isDisconnect
          = 1 + (writer L msgs s).1.countP Call.isFailedLog := by
  have hseg := writerSegments_shape L msgs s
  obtain ⟨h1, h2, -, -⟩ := segments_neighbours hseg
  rw [writer_trace, writerLoop_eq_segments]
  refine ⟨followedBy_append h1 (followedByCheck_sound _ _ _ rfl),
    ⟨(L.Disconnect (writerLoop L msgs s).2).1, by simp⟩, ?_, ?_⟩
  · intro pre d post h
    rcases List.append_eq_append_iff.mp h with ⟨a1, hpre, hb1⟩ | ⟨c1, ha1, hc1⟩
    · left
      cases a1 with
      | nil =>
        simp only [List.nil_append, List.cons.injEq] at hb1
        exact hb1.2.symm
      | cons x a2 =>
        simp only [List.cons_append, List.cons.injEq] at hb1
        exact absurd hb1.2 (by simp)
    · cases c1 with
      | nil =>
        left
        simp only [List.nil_append, List.cons.injEq] at hc1
        exact hc1.2
      | cons x c2 =>
        right
        simp only [List.cons_append, List.cons.injEq] at hc1
        obtain ⟨rfl, -⟩ := hc1
        exact h2 pre _ c2 ha1 rfl
  · rw [List.countP_append, List.countP_append, disconnect_count_segments hseg]
    simp [Call.isDisconnect, Call.isFailedLog]
    omega

/-- C24: in every run of the writer, each `Log` call is immediately preceded
by an `IsConnected` call that answered true or by a `Connect` call that
returned nil; the calls made for each message begin with an `IsConnected`
call and hold no other one, so the run makes exactly one `IsConnected` call
per message. -/
theorem writer_log_guarded {σ : Type} (L : Logger σ) (msgs : List GoString) (s : σ) :
    PrecededBy Call.isLog Call.permitsLog (writer L msgs s).1
      ∧ (∃ d, (writer L msgs s).1 = (writerSegments L msgs s).flatten ++ [Call.disconnect d])
      ∧ List.Forall₂
          (fun (_ : GoString) seg =>
            ∃ b rest, seg = Call.isConnected b :: rest ∧ rest.countP Call.isIsConnected = 0)
          msgs (writerSegments L msgs s)
      ∧ (writer L msgs s).1.countP Call.isIsConnected = msgs.length := by
  have hseg := writerSegments_shape L msgs s
  obtain ⟨-, -, h3, h4⟩ := segments_neighbours hseg
  rw [writer_trace, writerLoop_eq_segments]
  refine ⟨precededBy_append h3 (precededBy_of_check _ _ _ rfl), ⟨_, rfl⟩,
    hseg.imp fun _ _ hb => hb.neighbours.2.2.2, ?_⟩
  rw [List.countP_append, h4]
  rfl

/-! ## The delivery loop over a `FluentLogger` -/

theorem logWithRetry_final_state {σ : Type} (L : Logger σ) (msg : GoString) (s : σ) :
    delivered (logWithRetry L msg s).1 = [msg]
      ∨ (∃ s1 e, L.Connect s1 = (some e, (logWithRetry L msg s).2))
      ∨ (∃ s1 d, L.Disconnect s1 = (d, (logWithRetry L msg s).2)) := by
  unfold logWithRetry
  repeat' split
  all_goals
    first
      | exact Or.inl rfl
      | exact Or.inr (Or.inl ⟨_, _, by assumption⟩)
      | exact Or.inr (Or.inr ⟨_, _, by assumption⟩)

theorem writerBody_final_state {σ : Type} (L : Logger σ) (msg : GoString) (s : σ) :
    delivered (writerBody L msg s).1 = [msg]
      ∨ (∃ s1 e, L.Connect s1 = (some e, (writerBody L msg s).2))
      ∨ (∃ s1 d, L.Disconnect s1 = (d, (writerBody L msg s).2)) := by
  rcases hi : L.IsConnected s with ⟨b, s1⟩
  cases b with
  | true =>
    have hb : writerBody L msg s =
        (Call.isConnected true :: (logWithRetry L msg s1).1, (logWithRetry L msg s1).2) := by
      unfold writerBody
      rw [hi]
    rw [hb]
    exact logWithRetry_final_state L msg s1
  | false =>
    rcases hc : L.Connect s1 with ⟨_ | e, s2⟩
    · have hb : writerBody L msg s =
          (Call.isConnected false :: Call.connect none :: (logWithRetry L msg s2).1,
            (logWithRetry L msg s2).2) := by
        unfold writerBody
        rw [hi]
        simp only
        rw [hc]
      rw [hb]
      exact logWithRetry_final_state L msg s2
    · have hb : writerBody L msg s =
          ([Call.isConnected false, Call.connect (some e)], s2) := by
        unfold writerBody
        rw [hi]
        simp only
        rw [hc]
      rw [hb]
      exact Or.inr (Or.inl ⟨s1, e, hc⟩)

theorem writerBody_head {σ : Type} (L : Logger σ) (msg : GoString) (s : σ) :
    ∃ rest, (writerBody L msg s).1 = Call.isConnected (L.IsConnected s).1 :: rest := by
  unfold writerBody
  repeat' split
  all_goals simp_all

theorem BodyShape.dropped_cases {msg : GoString} {t : List Call} (h : BodyShape msg t)
    (hd : delivered t = []) :
    (∃ e, t = [Call.isConnected false, Call.connect (some e)])
      ∨ (∃ e1 d1 e2, fromFirstLog t =
          [Call.log msg (some e1), Call.disconnect d1, Call.connect (some e2)])
      ∨ (∃ e1 d1 e3 d2, fromFirstLog t =
          [Call.log msg (some e1), Call.disconnect d1, Call.connect none,
            Call.log msg (some e3), Call.disconnect d2]) := by
  rcases h with _ | ⟨_, hr⟩ | ⟨_, hr⟩
  · exact Or.inl ⟨_, rfl⟩
  all_goals
    rcases hr with _ | _ | _ | _
    all_goals
      first
        | exact Or.inr (Or.inl ⟨_, _, _, rfl⟩)
        | exact Or.inr (Or.inr ⟨_, _, _, _, rfl⟩)
        | simp [delivered, Call.sent?] at hd

theorem BodyShape.starts_with_connect {msg : GoString} {t rest : List Call}
    (h : BodyShape msg t) (ht : t = Call.isConnected false :: rest) :
    ∃ c rest1, t = Call.isConnected false :: Call.connect c :: rest1 := by
  rcases h with _ | ⟨_, hr⟩ | ⟨_, hr⟩
  · exact ⟨_, _, rfl⟩
  · simp at ht
  · exact ⟨_, _, rfl⟩

theorem toLogger_connect_failed {γ : Type} (C : MessageClient γ) (w : FluentLogger γ)
    (h : ((FluentLogger.toLogger C).Connect w).1 ≠ none) :
    ((FluentLogger.toLogger C).Connect w).2.connected = false := by
  simp only [FluentLogger.toLogger, FluentLogger.Connect] at h ⊢
  rcases hr : C.Reconnect w.c with ⟨_ | e, c1⟩
  · rw [hr] at h
    exact absurd rfl h
  · rfl

/-- C23: when the sink is a `FluentLogger` and a message is dropped, that
is, its lazy `Connect` failed, or its reconnect after a failed `Log` failed,
or its retry `Log` failed, the logger is not connected afterwards, so the
calls for the next message begin with `IsConnected` answering false followed
by a `Connect`; and after the run the logger is not connected. -/
theorem FluentLogger_disconnected_after_drop {γ : Type} (C : MessageClient γ)
    (w : FluentLogger γ) (msg next : GoString) (msgs : List GoString)
    (hdrop : delivered (writerBody (FluentLogger.toLogger C) msg w).1 = []) :
    ((∃ e, (writerBody (FluentLogger.toLogger C) msg w).1 =
          [Call.isConnected false, Call.connect (some e)])
        ∨ (∃ e1 d1 e2, fromFirstLog (writerBody (FluentLogger.toLogger C) msg w).1 =
            [Call.log msg (some e1), Call.disconnect d1, Call.connect (some e2)])
        ∨ (∃ e1 d1 e3 d2, fromFirstLog (writerBody (FluentLogger.toLogger C) msg w).1 =
            [Call.log msg (some e1), Call.disconnect d1, Call.connect none,
              Call.log msg (some e3), Call.disconnect d2]))
      ∧ (writerBody (FluentLogger.toLogger C) msg w).2.IsConnected = false
      ∧ (∃ c rest,
          (writerBody (FluentLogger.toLogger C) next
              (writerBody (FluentLogger.toLogger C) msg w).2).1
            = Call.isConnected false :: Call.connect c :: rest)
      ∧ (writerLoop (FluentLogger.toLogger C) (msg :: next :: msgs) w).1
          = (writerBody (FluentLogger.toLogger C) msg w).1 ++
              (writerLoop (FluentLogger.toLogger C) (next :: msgs)
                (writerBody (FluentLogger.toLogger C) msg w).2).1
      ∧ (writer (FluentLogger.toLogger C) msgs w).2.IsConnected = false := by
  have hflag : (writerBody (FluentLogger.toLogger C) msg w).2.connected = false := by
    rcases writerBody_final_state (FluentLogger.toLogger C) msg w with h | ⟨s1, e, h⟩ |
      ⟨s1, d, h⟩
    · rw [h] at hdrop
      exact absurd hdrop (by simp)
    · have := toLogger_connect_failed C s1 (by rw [h]; simp)
      rw [h] at this
      exact this
    · have : ((FluentLogger.toLogger C).Disconnect s1).2.connected = false := rfl
      rw [h] at this
      exact this
  refine ⟨(writerBody_shape _ msg w).dropped_cases hdrop, hflag, ?_, rfl, rfl⟩
  obtain ⟨rest, hrest⟩ := writerBody_head (FluentLogger.toLogger C) next
    (writerBody (FluentLogger.toLogger C) msg w).2
  have hanswer : ((FluentLogger.toLogger C).IsConnected
      (writerBody (FluentLogger.toLogger C) msg w).2).1 = false := hflag
  rw [hanswer] at hrest
  exact (writerBody_shape _ next _).starts_with_connect hrest

/-- C23 at a concrete input: an unconnected logger over a client whose
`Reconnect` fails once; the message is dropped and the next one starts with
a `Connect`. -/
theorem FluentLogger_disconnected_after_drop_witness :
    delivered (writerBody (FluentLogger.toLogger scriptedClient) (bytes "l1")
        { tag := bytes "tag", stream := bytes "stdout", extra := [],
          c := ({ send := [], reconnect := [some someErr], disconnect := [] } : ClientScript),
          connected := false }).1 = []
      ∧ (writerBody (FluentLogger.toLogger scriptedClient) (bytes "l1")
        { tag := bytes "tag", stream := bytes "stdout", extra := [],
          c := ({ send := [], reconnect := [some someErr], disconnect := [] } : ClientScript),
          connected := false }).2.IsConnected = false
      ∧ ∃ c rest,
          (writerBody (FluentLogger.toLogger scriptedClient) (bytes "l2")
              (writerBody (FluentLogger.toLogger scriptedClient) (bytes "l1")
                { tag := bytes "tag", stream := bytes "stdout", extra := [],
                  c := ({ send := [], reconnect := [some someErr], disconnect := [] } :
                    ClientScript),
                  connected := false }).2).1
            = Call.isConnected false :: Call.connect c :: rest :=
  ⟨rfl,
    (FluentLogger_disconnected_after_drop scriptedClient
      { tag := bytes "tag", stream := bytes "stdout", extra := [],
        c := ({ send := [], reconnect := [some someErr], disconnect := [] } : ClientScript),
        connected := false } (bytes "l1") (bytes "l2") [] rfl).2.1,
    (FluentLogger_disconnected_after_drop scriptedClient
      { tag := bytes "tag", stream := bytes "stdout", extra := [],
        c := ({ send := [], reconnect := [some someErr], disconnect := [] } : ClientScript),
        connected := false } (bytes "l1") (bytes "l2") [] rfl).2.2.1⟩

end Log2Fluent
